import Mathlib

/-!
Verification of the file-storage server (`src/server.js`).

This file shallowly embeds the path handling, name allocation and
filesystem-tree operations of the Express file-storage server and proves
properties about them.

JS strings are modelled as Lean `String`s (operated on through their
`.data` character lists), Node's POSIX `path` functions are modelled on
segment lists, and the filesystem is modelled as a finite tree rooted at
the configured upload directory (`StorageRoot`).
-/

namespace FileStore

/-! ## JS string primitives -/

/-- The character class `[<>:"/\\|?*]` of `String.prototype.replace` calls
    in `server.js` (upload filename, create folder, rename, folder upload). -/
def forbiddenChar (c : Char) : Bool :=
  c = '<' || c = '>' || c = ':' || c = '"' || c = '/' || c = '\\' ||
  c = '|' || c = '?' || c = '*'

/-- `name.replace(/[<>:"/\\|?*]/g, '_')` : every forbidden character becomes `_`. -/
def jsSanitize (s : String) : String :=
  ⟨s.data.map (fun c => if forbiddenChar c then '_' else c)⟩

/-- Whitespace recognised by `String.prototype.trim`. -/
def wsChar (c : Char) : Bool :=
  c = ' ' || c = '\t' || c = '\n' || c = '\r' || c = '\x0c' || c = '\x0b'

/-- `s.trim()` : strip leading and trailing whitespace. -/
def jsTrim (s : String) : String :=
  ⟨(((s.data.dropWhile wsChar).reverse.dropWhile wsChar).reverse)⟩

/-- `s.startsWith(pre)` : character-level prefix test. -/
def jsStartsWith (s pre : String) : Bool :=
  pre.data.isPrefixOf s.data

/-! ## Node `path` (POSIX) model -/

/-- Split a character list on `'/'` (groups may be empty). -/
def splitChars : List Char → List (List Char)
  | [] => [[]]
  | c :: rest =>
    match splitChars rest with
    | [] => [[]]
    | g :: gs => if c = '/' then [] :: g :: gs else (c :: g) :: gs

/-- The non-empty `'/'`-separated segments of a path string. -/
def splitPath (s : String) : List String :=
  ((splitChars s.data).map (fun l => (⟨l⟩ : String))).filter (fun t => t ≠ "")

/-- `path.isAbsolute` : the string starts with `'/'`. -/
def isAbsStr (s : String) : Bool :=
  match s.data with
  | [] => false
  | c :: _ => c = '/'

/-- Join segments with `'/'` (no leading/trailing separator). -/
def joinSegs : List String → String
  | [] => ""
  | [s] => s
  | s :: rest => s ++ "/" ++ joinSegs rest

/-- Render a segment list back to a path string, as Node does after
    normalization (`"."` for an empty relative path, `"/"`-prefixed when
    absolute). -/
def renderPath (abs : Bool) (segs : List String) : String :=
  if abs then "/" ++ joinSegs segs
  else if segs = [] then "." else joinSegs segs

/-- One step of Node's `path.normalize` segment resolution: `"."` and empty
    segments vanish; `".."` pops a regular segment, accumulates on a
    relative path, and is discarded at the root of an absolute path.
    The stack holds the output segments in reverse (top at head). -/
def normStep (abs : Bool) (stack : List String) (seg : String) : List String :=
  if seg = "." ∨ seg = "" then stack
  else if seg = ".." then
    match stack with
    | [] => if abs then [] else [".."]
    | top :: rest => if top = ".." then ".." :: top :: rest else rest
  else seg :: stack

/-- Resolve `"."`/`".."` in a segment list (`abs` tells whether the path is
    absolute, which decides how a leading `".."` is treated). -/
def normSegs (abs : Bool) (segs : List String) : List String :=
  (segs.foldl (normStep abs) []).reverse

/-- `path.normalize` (POSIX). -/
def pathNormalize (s : String) : String :=
  renderPath (isAbsStr s) (normSegs (isAbsStr s) (splitPath s))

/-- `path.join(a, b)` (POSIX): concatenate the non-empty parts with `'/'`
    and normalize; `"."` when both are empty. -/
def pathJoin (a b : String) : String :=
  if a = "" then (if b = "" then "." else pathNormalize b)
  else if b = "" then pathNormalize a
  else pathNormalize (a ++ "/" ++ b)

/-- `path.join(a, b, c)` (POSIX three-argument form). -/
def pathJoin3 (a b c : String) : String := pathJoin (pathJoin a b) c

/-- `path.dirname` on an (already normalized) path. -/
def dirnameStr (s : String) : String :=
  let abs := isAbsStr s
  let segs := splitPath s
  if segs.length ≤ 1 then (if abs then "/" else ".")
  else renderPath abs segs.dropLast

/-- `path.parse(name)` restricted to the `(name, ext)` pair: the extension
    starts at the last dot, except when that dot is the first character. -/
def parseNameExt (s : String) : String × String :=
  let rev := s.data.reverse
  let a := rev.takeWhile (fun c => c ≠ '.')
  match rev.dropWhile (fun c => c ≠ '.') with
  | [] => (s, "")
  | _ :: before =>
    if before = [] then (s, "")
    else (⟨before.reverse⟩, ⟨'.' :: a.reverse⟩)

/-! ## Decimal rendering of the duplicate counter (JS `${counter}`) -/

/-- The decimal digit character for `d < 10`. -/
def decDigitChar (d : Nat) : Char := Char.ofNat (48 + d)

/-- Numeric value of a digit character. -/
def digitVal (c : Char) : Nat := c.toNat - 48

/-- Little-endian decimal digits of `n` (with explicit fuel so that the
    definition reduces by `rfl`; `fuel = n` always suffices). -/
def decDigitsAux : Nat → Nat → List Char
  | _, 0 => []
  | 0, _ + 1 => []
  | fuel + 1, n + 1 => decDigitChar ((n + 1) % 10) :: decDigitsAux fuel ((n + 1) / 10)

/-- Decimal rendering of a natural number, as JS template interpolation does. -/
def decimal (n : Nat) : String :=
  if n = 0 then "0" else ⟨(decDigitsAux n n).reverse⟩

/-! ## Name Allocator (duplicate-name loop of `server.js`)

The same `while (fs.existsSync(...))` loop appears in the multer `filename`
callback and twice in `processFolderContents`; `taken` is the set of names
already present in the target directory. -/

/-- The candidate tried at counter `k`: the plain name for `k = 0`, then
    `"{stem} (k){ext}"`. -/
def probeName (stem ext : String) : Nat → String
  | 0 => stem ++ ext
  | k + 1 => stem ++ " (" ++ decimal (k + 1) ++ ")" ++ ext

/-- The `while`-loop: try `probeName k`, advancing the counter while the
    candidate exists.  The fuel only bounds the iteration count; with fuel
    `taken.length + 1` the loop always exits on a free name. -/
def allocFrom (taken : List String) (stem ext : String) : Nat → Nat → String
  | 0, k => probeName stem ext k
  | fuel + 1, k =>
    if probeName stem ext k ∈ taken then allocFrom taken stem ext fuel (k + 1)
    else probeName stem ext k

/-- Allocate a collision-free name for `stem ++ ext` in a directory whose
    entries are `taken`. -/
def allocateName (taken : List String) (stem ext : String) : String :=
  allocFrom taken stem ext (taken.length + 1) 0

/-- Allocate the same desired name repeatedly into an initially empty
    directory, creating each result (the repetition scenario of §8). -/
def allocSeq (stem ext : String) : Nat → List String
  | 0 => []
  | n + 1 =>
    let prev := allocSeq stem ext n
    prev ++ [allocateName prev stem ext]

/-- The stored filename of the multer `diskStorage.filename` callback:
    sanitize the parsed stem (the extension is taken from `path.parse`
    unchanged), then run the duplicate-name loop. -/
def multerFilename (taken : List String) (originalname : String) : String :=
  let stem := jsSanitize (parseNameExt originalname).1
  let ext := (parseNameExt originalname).2
  allocateName taken stem ext

/-- The multer `diskStorage.destination` callback: joins the client
    `currentPath` onto the upload root and `ensureDirSync`s it, with no
    validation of the path. -/
def multerDestination (root currentPath : String) : String :=
  pathJoin root currentPath

/-! ## Filesystem tree -/

/-- A filesystem entry under `StorageRoot`: a file with its byte size, or a
    directory with an ordered list of named children. -/
inductive FsEntry where
  | file (size : Nat)
  | dir (children : List (String × FsEntry))

/-- First child with the given name. -/
def childGet : List (String × FsEntry) → String → Option FsEntry
  | [], _ => none
  | (m, e) :: rest, n => if m = n then some e else childGet rest n

/-- Look an entry up by its relative segment path (`fs.existsSync` /
    `fs.statSync`). -/
def FsEntry.find? : FsEntry → List String → Option FsEntry
  | fs, [] => some fs
  | .file _, _ :: _ => none
  | .dir ch, seg :: rest =>
    match childGet ch seg with
    | none => none
    | some e => e.find? rest

/-- Remove the entry at a path (`fs.removeSync` / `fs.unlinkSync`). -/
def removeEntry : FsEntry → List String → FsEntry
  | fs, [] => fs
  | .file sz, _ :: _ => .file sz
  | .dir ch, [name] => .dir (ch.filter (fun c => c.1 ≠ name))
  | .dir ch, seg :: rest =>
    .dir (ch.map (fun c => if c.1 = seg then (c.1, removeEntry c.2 rest) else c))

/-- `fs.ensureDirSync`: create the directory at the path, with parents as
    needed; `none` models the thrown error when a file is in the way. -/
def ensureDir : FsEntry → List String → Option FsEntry
  | .file _, [] => none
  | .dir ch, [] => some (.dir ch)
  | .file _, _ :: _ => none
  | .dir ch, seg :: rest =>
    match childGet ch seg with
    | some e =>
      (ensureDir e rest).map (fun e' =>
        .dir (ch.map (fun c => if c.1 = seg then (c.1, e') else c)))
    | none =>
      (ensureDir (.dir []) rest).map (fun e' => .dir (ch ++ [(seg, e')]))

/-- Apply a function to the entry at a path (used to run the folder-upload
    materializer inside the freshly created target directory). -/
def mapAt : FsEntry → List String → (FsEntry → FsEntry) → FsEntry
  | fs, [], f => f fs
  | .file sz, _ :: _, _ => .file sz
  | .dir ch, seg :: rest, f =>
    .dir (ch.map (fun c => if c.1 = seg then (c.1, mapAt c.2 rest f) else c))

/-- `fs.renameSync` between sibling paths: rename the child `oldName` of the
    directory at `parent` to `newName` (position and entry preserved). -/
def renameChild (fs : FsEntry) (parent : List String) (oldName newName : String) :
    FsEntry :=
  mapAt fs parent (fun e =>
    match e with
    | .file sz => .file sz
    | .dir ch => .dir (ch.map (fun c => if c.1 = oldName then (newName, c.2) else c)))

/-! ## HTTP route handlers

Each route is a function of the storage-root segments `R` (the segments of
the absolute `uploadDir`, which contain no `""`/`"."`/`".."`), the current
filesystem tree rooted there, and the client-supplied strings.  Responses
are modelled by `ApiResult`; mutating routes also return the new tree.

`resolveAt R rel` is the segment path, relative to the root, denoted by the
absolute string `path.join(uploadDir, rel)`: it normalizes the concatenated
segments and drops the root prefix. -/

/-- A JSON response: an error status with its message, or a success payload. -/
inductive ApiResult (α : Type) where
  | err (status : Nat) (message : String)
  | ok (payload : α)

/-- The in-root segment path addressed by `path.join(uploadDir, rel)`. -/
def resolveAt (R : List String) (rel : String) : List String :=
  (normSegs true (R ++ splitPath rel)).drop R.length

/-- Like `resolveAt` for the three-argument `path.join(uploadDir, cur, name)`. -/
def resolveAt2 (R : List String) (cur name : String) : List String :=
  (normSegs true (R ++ splitPath cur ++ splitPath name)).drop R.length

/-- The traversal guard shared by the delete / download / rename / file-info
    routes: `fullPath.startsWith(uploadDir)` on the joined string, with no
    separator check. -/
def prefixGuard (root rel : String) : Bool :=
  jsStartsWith (pathJoin root rel) root

/-- `getParentPath` helper of `server.js`. -/
def getParentPath (currentPath : String) : Option String :=
  if currentPath = "" then none
  else
    let parent := dirnameStr (pathNormalize currentPath)
    some (if parent = "." then "" else parent)

/-- A listing row (display-only fields — formatted size, MIME type,
    timestamps — are elided). -/
structure DirEntry where
  name : String
  path : String
  isDirectory : Bool
  size : Option Nat
deriving DecidableEq

/-- Case-insensitive lexicographic order on character lists. -/
def lexLE : List Char → List Char → Bool
  | [], _ => true
  | _ :: _, [] => false
  | a :: as, b :: bs => if a = b then lexLE as bs else decide (a < b)

/-- The listing comparator: directories first, then
    `localeCompare(..., { sensitivity: 'base' })` modelled as
    case-insensitive lexicographic order. -/
def entryLE (a b : DirEntry) : Bool :=
  if a.isDirectory && !b.isDirectory then true
  else if !a.isDirectory && b.isDirectory then false
  else lexLE (a.name.data.map Char.toLower) (b.name.data.map Char.toLower)

/-- Insert into a sorted list (stable insertion sort, as `Array.sort`). -/
def insertLE {α : Type} (le : α → α → Bool) (x : α) : List α → List α
  | [] => [x]
  | y :: ys => if le x y then x :: y :: ys else y :: insertLE le x ys

/-- Sort a list by the boolean comparator. -/
def sortByLE {α : Type} (le : α → α → Bool) : List α → List α
  | [] => []
  | x :: xs => insertLE le x (sortByLE le xs)

/-- The listing row built for one child. -/
def mkDirEntry (basePath : String) (c : String × FsEntry) : DirEntry :=
  { name := c.1
    path := pathJoin basePath c.1
    isDirectory := match c.2 with | .dir _ => true | .file _ => false
    size := match c.2 with | .dir _ => none | .file sz => some sz }

/-- The success payload of `GET /api/files`.  `totalItems` and `totalSize`
    are `Option`s because the not-found early return of the route omits
    them from the JSON object. -/
structure ListOk where
  files : List DirEntry
  currentPath : String
  parentPath : Option String
  totalItems : Option Nat
  totalSize : Option Nat
deriving DecidableEq

/-- `GET /api/files` (lines 100–164): normalization security check, empty
    listing for a missing path, `NotADirectory` for a file, otherwise the
    sorted rows with aggregates. -/
def listFilesRoute (R : List String) (fs : FsEntry) (basePath : String) :
    ApiResult ListOk :=
  let nrm := pathNormalize basePath
  if jsStartsWith nrm ".." || isAbsStr nrm then .err 400 "Invalid path"
  else
    match fs.find? (resolveAt R basePath) with
    | none =>
      .ok { files := [], currentPath := basePath,
            parentPath := getParentPath basePath,
            totalItems := none, totalSize := none }
    | some (.file _) => .err 400 "Path is not a directory"
    | some (.dir ch) =>
      let result := sortByLE entryLE (ch.map (mkDirEntry basePath))
      .ok { files := result, currentPath := basePath,
            parentPath := getParentPath basePath,
            totalItems := some result.length,
            totalSize := some (result.foldl (fun acc it => acc + it.size.getD 0) 0) }

/-- Success payload of the delete routes. -/
structure DeleteOk where
  path : String
deriving DecidableEq

/-- `DELETE /api/delete` (lines 347–392): prefix guard, 404 when absent,
    refuse a non-empty directory, otherwise remove. -/
def deleteRoute (R : List String) (fs : FsEntry) (filePath : String) :
    ApiResult DeleteOk × FsEntry :=
  if filePath = "" then (.err 400 "File path is required", fs)
  else if !(prefixGuard (renderPath true R) filePath) then
    (.err 400 "Invalid path", fs)
  else
    let p := resolveAt R filePath
    match fs.find? p with
    | none => (.err 404 "File/folder not found", fs)
    | some (.dir ch) =>
      if ch.length > 0 then
        (.err 400 "Folder is not empty. Delete contents first or use force delete.",
         fs)
      else (.ok ⟨filePath⟩, removeEntry fs p)
    | some (.file _) => (.ok ⟨filePath⟩, removeEntry fs p)

/-- `DELETE /api/delete-force` (lines 395–425): as above but removing
    recursively with no empty check. -/
def deleteForceRoute (R : List String) (fs : FsEntry) (filePath : String) :
    ApiResult DeleteOk × FsEntry :=
  if filePath = "" then (.err 400 "File path is required", fs)
  else if !(prefixGuard (renderPath true R) filePath) then
    (.err 400 "Invalid path", fs)
  else
    let p := resolveAt R filePath
    match fs.find? p with
    | none => (.err 404 "File/folder not found", fs)
    | some _ => (.ok ⟨filePath⟩, removeEntry fs p)

/-- Payload of `GET /api/download`: the attachment filename and size of the
    streamed file. -/
structure DownloadOk where
  filename : String
  size : Nat
deriving DecidableEq

/-- `GET /api/download` (lines 428–477). -/
def downloadRoute (R : List String) (fs : FsEntry) (filePath : String) :
    ApiResult DownloadOk :=
  if filePath = "" then .err 400 "File path is required"
  else if !(prefixGuard (renderPath true R) filePath) then .err 400 "Invalid path"
  else
    let p := resolveAt R filePath
    match fs.find? p with
    | none => .err 404 "File not found"
    | some (.dir _) =>
      .err 400 "Cannot download folder directly. Use /api/download-folder instead."
    | some (.file sz) => .ok ⟨p.getLast?.getD "", sz⟩

/-- Payload of `GET /api/download-folder`: the zip name and the archived
    subtree. -/
structure DownloadFolderOk where
  zipName : String
  tree : FsEntry

/-- `GET /api/download-folder` (lines 480–531). -/
def downloadFolderRoute (R : List String) (fs : FsEntry) (folderPath : String) :
    ApiResult DownloadFolderOk :=
  if folderPath = "" then .err 400 "Folder path is required"
  else if !(prefixGuard (renderPath true R) folderPath) then .err 400 "Invalid path"
  else
    let p := resolveAt R folderPath
    match fs.find? p with
    | none => .err 404 "Folder not found"
    | some (.file _) => .err 404 "Folder not found"
    | some (.dir ch) =>
      let folderName := p.getLast?.getD "download"
      .ok ⟨folderName ++ ".zip", .dir ch⟩

/-- The info object of `GET /api/file-info` (timestamps elided). -/
structure FileInfoOk where
  name : String
  path : String
  isDirectory : Bool
  size : Option Nat
  itemCount : Option Nat
  containsFiles : Option Bool
  containsFolders : Option Bool
deriving DecidableEq

/-- `GET /api/file-info` (lines 580–637). -/
def fileInfoRoute (R : List String) (fs : FsEntry) (filePath : String) :
    ApiResult FileInfoOk :=
  if filePath = "" then .err 400 "File path is required"
  else if !(prefixGuard (renderPath true R) filePath) then .err 400 "Invalid path"
  else
    let p := resolveAt R filePath
    match fs.find? p with
    | none => .err 404 "File/folder not found"
    | some (.file sz) =>
      .ok ⟨p.getLast?.getD "", filePath, false, some sz, none, none, none⟩
    | some (.dir ch) =>
      .ok ⟨p.getLast?.getD "", filePath, true, none, some ch.length,
           some (ch.any (fun c => match c.2 with | .file _ => true | .dir _ => false)),
           some (ch.any (fun c => match c.2 with | .dir _ => true | .file _ => false))⟩

/-- Success payload of `POST /api/folder`. -/
structure CreateFolderOk where
  name : String
  path : String
deriving DecidableEq

/-- `POST /api/folder` (lines 313–344): sanitize + trim the name, hard 409
    on an existing entry, otherwise create with parents.  Note: the route
    performs no path validation of `currentPath`. -/
def createFolderRoute (R : List String) (fs : FsEntry)
    (currentPath folderName : String) : ApiResult CreateFolderOk × FsEntry :=
  if folderName = "" ∨ jsTrim folderName = "" then
    (.err 400 "Folder name is required", fs)
  else
    let san := jsTrim (jsSanitize folderName)
    if san = "" then (.err 400 "Invalid folder name", fs)
    else
      let p := resolveAt2 R currentPath san
      if (fs.find? p).isSome then (.err 409 "Folder already exists", fs)
      else
        match ensureDir fs p with
        | none => (.err 500 "Internal server error", fs)
        | some fs' => (.ok ⟨san, joinSegs p⟩, fs')

/-- Decision pipeline of `POST /api/folder` over an abstract existence
    oracle on absolute path strings; this version can express the target
    landing outside `StorageRoot`, which the in-root tree cannot. -/
inductive CreateFolderDecision where
  | nameRequired
  | invalidName
  | alreadyExists (target : String)
  | created (target : String)
deriving DecidableEq

/-- The path computation and checks of `POST /api/folder`, string-level. -/
def createFolderAbs (exists? : String → Bool) (root currentPath folderName : String) :
    CreateFolderDecision :=
  if folderName = "" ∨ jsTrim folderName = "" then .nameRequired
  else
    let san := jsTrim (jsSanitize folderName)
    if san = "" then .invalidName
    else
      let target := pathJoin3 root currentPath san
      if exists? target then .alreadyExists target else .created target

/-- The target directory string of `POST /api/upload-folder`
    (`path.join(uploadDir, currentPath || '', sanitizedName)`), computed
    with no path validation. -/
def uploadFolderTarget (root currentPath rawName : String) : String :=
  pathJoin3 root currentPath (jsSanitize rawName)

/-! ## Recursive upload materializer (`processFolderContents`, lines 252–310) -/

/-- The client-submitted folder descriptor: a name, files as
    `(name, base64 content)` pairs, and subfolders. -/
inductive FolderData where
  | node (name : String) (files : List (String × String)) (folders : List FolderData)

/-- The descriptor's name. -/
def FolderData.name : FolderData → String
  | .node n _ _ => n

/-- The names present in a children list (`fs.existsSync` within the
    target directory). -/
def namesOf (ch : List (String × FsEntry)) : List String := ch.map (·.1)

/-- The files loop of `processFolderContents`: skip falsy names/contents,
    sanitize, run the duplicate-name loop on the parse of the sanitized
    name, write the decoded bytes (modelled by the content's length). -/
def processFiles : List (String × String) → List (String × FsEntry) →
    List (String × FsEntry)
  | [], ch => ch
  | (nm, content) :: rest, ch =>
    if nm = "" ∨ content = "" then processFiles rest ch
    else
      let san := jsSanitize nm
      let fin := allocateName (namesOf ch) (parseNameExt san).1 (parseNameExt san).2
      processFiles rest (ch ++ [(fin, .file content.length)])

mutual

/-- The subfolder loop of `processFolderContents`: skip falsy names,
    sanitize, disambiguate with no extension, create, recurse. -/
def processFolderList : List FolderData → List (String × FsEntry) →
    List (String × FsEntry)
  | [], ch => ch
  | fd :: rest, ch =>
    if fd.name = "" then processFolderList rest ch
    else
      let san := jsSanitize fd.name
      let fin := allocateName (namesOf ch) san ""
      processFolderList rest (ch ++ [(fin, .dir (processFolderContents fd []))])

/-- `processFolderContents(folderData, targetPath)`: materialize the files,
    then the subfolders, into the directory whose children are `ch`. -/
def processFolderContents : FolderData → List (String × FsEntry) →
    List (String × FsEntry)
  | .node _ files folders, ch => processFolderList folders (processFiles files ch)

end

/-- Success payload of `POST /api/upload-folder`. -/
structure UploadFolderOk where
  path : String
  name : String
deriving DecidableEq

/-- `POST /api/upload-folder` (lines 217–250): sanitize the top-level name
    (no trim), hard 409 when the target exists — aborting before anything
    is created — otherwise create the directory and materialize the
    descriptor into it.  No path validation of `currentPath` is performed. -/
def uploadFolderRoute (R : List String) (fs : FsEntry) (currentPath : String)
    (fd : FolderData) : ApiResult UploadFolderOk × FsEntry :=
  if fd.name = "" then (.err 400 "Invalid folder data", fs)
  else
    let san := jsSanitize fd.name
    let p := resolveAt2 R currentPath san
    if (fs.find? p).isSome then (.err 409 "Folder already exists", fs)
    else
      match ensureDir fs p with
      | none => (.err 500 "Internal server error", fs)
      | some fs₁ =>
        (.ok ⟨joinSegs p, san⟩,
         mapAt fs₁ p (fun e =>
           match e with
           | .file sz => .file sz
           | .dir ch => .dir (processFolderContents fd ch)))

/-- Success payload of `PUT /api/rename`. -/
structure RenameOk where
  oldPath : String
  newPath : String
  newName : String
deriving DecidableEq

/-- `PUT /api/rename` (lines 534–577): sanitize + trim the new name, build
    the sibling target beside `oldPath`, run the prefix guard on both
    absolute strings, 404 when the old path is absent, 409 when the target
    exists, otherwise a single `fs.renameSync`. -/
def renameRoute (R : List String) (fs : FsEntry) (oldPath newName : String) :
    ApiResult RenameOk × FsEntry :=
  if oldPath = "" ∨ newName = "" ∨ jsTrim newName = "" then
    (.err 400 "Old path and new name are required", fs)
  else
    let san := jsTrim (jsSanitize newName)
    if san = "" then (.err 400 "Invalid new name", fs)
    else
      let root := renderPath true R
      let oldFull := pathJoin root oldPath
      let newFull := pathJoin (dirnameStr oldFull) san
      if !(jsStartsWith oldFull root) || !(jsStartsWith newFull root) then
        (.err 400 "Invalid path", fs)
      else
        let p := resolveAt R oldPath
        let q := p.dropLast ++ [san]
        match fs.find? p with
        | none => (.err 404 "File/folder not found", fs)
        | some _ =>
          if (fs.find? q).isSome then
            (.err 409 "A file/folder with the new name already exists", fs)
          else
            (.ok ⟨oldPath, joinSegs q, san⟩,
             renameChild fs p.dropLast (p.getLast?.getD "") san)

/-! ## Upload limits (multer configuration and the error middleware) -/

/-- `limits.fileSize` of the multer configuration (100 MB). -/
def maxFileSize : Nat := 100 * 1024 * 1024

/-- `limits.files` of the multer configuration. -/
def maxFileCount : Nat := 50

/-- The multer limit errors relevant to the configured limits. -/
inductive MulterError where
  | limitFileSize
  | limitFileCount
deriving DecidableEq

/-- Modelled from the spec: the multer library (not part of this
    repository) enforces the configured per-file size cap and per-request
    file-count cap, raising `LIMIT_FILE_SIZE` / `LIMIT_FILE_COUNT`
    respectively.  `sizes` are the sizes of the files of one request. -/
def multerCheck (sizes : List Nat) : Option MulterError :=
  if sizes.any (fun s => s > maxFileSize) then some .limitFileSize
  else if sizes.length > maxFileCount then some .limitFileCount
  else none

/-- The error middleware (lines 84–95): map each limit error to its
    status and message. -/
def errorMiddleware : MulterError → Nat × String
  | .limitFileSize => (400, "File too large. Maximum size is 100MB")
  | .limitFileCount => (400, "Too many files. Maximum is 50 files")

/-- A layer on the Express application stack: a plain middleware or route
    handler (two or three arguments), or a four-argument error handler. -/
inductive LayerKind where
  | plain (name : String)
  | errorHandler (name : String)
deriving DecidableEq

/-- Whether the layer is a four-argument error handler. -/
def LayerKind.isErrorHandler : LayerKind → Bool
  | .errorHandler _ => true
  | .plain _ => false

/-- The middleware and route stack of `server.js` in registration order
    (lines 13–675).  The limit-error middleware of lines 84–95 is
    registered at index 5, before every route; the closing `app.use`
    handler of lines 673–675 takes two arguments, so it is a plain layer,
    not an error handler. -/
def serverLayers : List LayerKind :=
  [ .plain "cors", .plain "express.json", .plain "express.urlencoded",
    .plain "express.static public", .plain "express.static uploads",
    .errorHandler "limit-error middleware",
    .plain "GET /api/files", .plain "POST /api/upload",
    .plain "POST /api/upload-folder", .plain "POST /api/folder",
    .plain "DELETE /api/delete", .plain "DELETE /api/delete-force",
    .plain "GET /api/download", .plain "GET /api/download-folder",
    .plain "PUT /api/rename", .plain "GET /api/file-info",
    .plain "GET /health", .plain "GET *", .plain "handle-404" ]

/-- Index of `POST /api/upload` on the stack. -/
def uploadRouteIdx : Nat := 7

/-- Modelled from the spec: the HTTP routing layer (Express, an external
    collaborator) dispatches `next(err)` by scanning only the layers
    registered after the erroring one for an error handler; when none
    exists there, its default final handler answers 500.  A multer limit
    error raised while serving a layer is therefore answered by the first
    later error handler — here by none, since the only error handler
    precedes every route. -/
def dispatchMulterError (layers : List LayerKind) (fromIdx : Nat)
    (err : MulterError) : Nat × String :=
  if (layers.drop (fromIdx + 1)).any LayerKind.isErrorHandler then
    errorMiddleware err
  else (500, "Internal Server Error")

/-- The response of `POST /api/upload` to a request whose file sizes are
    `sizes`, when a configured limit is violated (`none` when both limits
    are respected and the upload proceeds to the route handler). -/
def uploadLimitResponse (sizes : List Nat) : Option (Nat × String) :=
  (multerCheck sizes).map (dispatchMulterError serverLayers uploadRouteIdx)

/-! ## Basic facts about the string and path model -/

/-- A plain path segment: not empty, not a dot segment, and slash-free.
    Segments produced by `splitPath` on ordinary client paths are plain. -/
def PlainSeg (s : String) : Prop :=
  s ≠ "" ∧ s ≠ "." ∧ s ≠ ".." ∧ '/' ∉ s.data

instance : DecidablePred PlainSeg := fun s => by
  unfold PlainSeg; exact inferInstance

/-- All segments of the list are plain. -/
def PlainL (l : List String) : Prop := ∀ s ∈ l, PlainSeg s

instance : DecidablePred PlainL := fun l => by
  unfold PlainL; exact List.decidableBAll _ l

/-- The net effect `(k, M)` of a segment list: `k` pops below the pushed
    part, `M` the pushed segments (reversed, top at head). -/
def foldP : List String → Nat × List String → Nat × List String
  | [], st => st
  | seg :: rest, (k, M) =>
    foldP rest
      (if seg = "." ∨ seg = "" then (k, M)
       else if seg = ".." then
         match M with
         | [] => (k + 1, [])
         | _ :: M₁ => (k, M₁)
       else (k, seg :: M))

/-- A client path escapes the root when the joined absolute path does not
    lie below the root's segments. -/
def escapesRoot (R : List String) (rel : String) : Prop :=
  ¬ (R <+: normSegs true (R ++ splitPath rel))

instance (R : List String) (rel : String) : Decidable (escapesRoot R rel) := by
  unfold escapesRoot
  exact inferInstance

/-- Value of a little-endian digit list. -/
def valOf : List Char → Nat
  | [] => 0
  | c :: r => digitVal c + 10 * valOf r

/-- The first segment (if any) does not begin with two dots — such names
    would be falsely rejected by the string-level `startsWith('..')`. -/
def headNoDots : List String → Prop
  | [] => True
  | s :: _ => ¬ (['.', '.'] <+: s.data)

instance : DecidablePred headNoDots := fun l => by
  cases l with
  | nil => exact isTrue trivial
  | cons s rest => exact inferInstanceAs (Decidable (¬ _))

theorem string_eq_empty_iff (s : String) : s = "" ↔ s.data = [] :=
  ⟨fun h => h ▸ rfl, fun h => String.ext h⟩

theorem splitChars_cons (c : Char) (rest : List Char) :
    splitChars (c :: rest)
      = match splitChars rest with
        | [] => [[]]
        | g :: gs => if c = '/' then [] :: g :: gs else (c :: g) :: gs := rfl

theorem splitChars_ne_nil (l : List Char) : splitChars l ≠ [] := by
  cases l with
  | nil => simp [splitChars]
  | cons c rest =>
    rw [splitChars_cons]
    cases splitChars rest with
    | nil => simp
    | cons g gs => by_cases hc : c = '/' <;> simp [hc]

theorem splitChars_no_slash (l : List Char) :
    ∀ g ∈ splitChars l, '/' ∉ g := by
  induction l with
  | nil =>
    intro g hg
    have hge : g = [] := by simpa [splitChars] using hg
    simp [hge]
  | cons c rest ih =>
    intro g hg
    cases h : splitChars rest with
    | nil => exact absurd h (splitChars_ne_nil rest)
    | cons g0 gs =>
      rw [splitChars_cons, h] at hg
      change g ∈ (if c = '/' then [] :: g0 :: gs else (c :: g0) :: gs) at hg
      by_cases hc : c = '/'
      · rw [if_pos hc] at hg
        rcases List.mem_cons.mp hg with h1 | h1
        · simp [h1]
        · exact ih g (by rw [h]; exact h1)
      · rw [if_neg hc] at hg
        rcases List.mem_cons.mp hg with h1 | h1
        · subst h1
          intro hmem
          rcases List.mem_cons.mp hmem with h2 | h2
          · exact hc h2.symm
          · exact ih g0 (by rw [h]; exact List.mem_cons_self g0 gs) h2
        · exact ih g (by rw [h]; exact List.mem_cons_of_mem g0 h1)

theorem splitChars_append_slash (xs ys : List Char) :
    splitChars (xs ++ '/' :: ys) = splitChars xs ++ splitChars ys := by
  induction xs with
  | nil =>
    cases h : splitChars ys with
    | nil => exact absurd h (splitChars_ne_nil ys)
    | cons g gs => simp [splitChars, h]
  | cons c rest ih =>
    cases h : splitChars rest with
    | nil => exact absurd h (splitChars_ne_nil rest)
    | cons g gs =>
      rw [List.cons_append, splitChars_cons, ih, splitChars_cons, h]
      by_cases hc : c = '/' <;> simp [hc]

theorem splitChars_of_no_slash (l : List Char) (h : '/' ∉ l) :
    splitChars l = [l] := by
  induction l with
  | nil => rfl
  | cons c rest ih =>
    have hc : c ≠ '/' := fun hc => h (hc ▸ List.mem_cons_self c rest)
    have hrest : '/' ∉ rest := fun hm => h (List.mem_cons_of_mem c hm)
    unfold splitChars
    rw [ih hrest]
    simp [hc]

theorem splitPath_append (a b : String) :
    splitPath (a ++ "/" ++ b) = splitPath a ++ splitPath b := by
  unfold splitPath
  have : (a ++ "/" ++ b).data = a.data ++ '/' :: b.data := by
    rw [String.data_append, String.data_append]
    simp
  rw [this, splitChars_append_slash, List.map_append, List.filter_append]

theorem splitPath_single (s : String) (h : PlainSeg s) : splitPath s = [s] := by
  unfold splitPath
  rw [splitChars_of_no_slash s.data h.2.2.2]
  simp [h.1]

theorem splitPath_empty : splitPath "" = [] := rfl

theorem joinSegs_append (l₁ l₂ : List String) (h₁ : l₁ ≠ []) (h₂ : l₂ ≠ []) :
    joinSegs (l₁ ++ l₂) = joinSegs l₁ ++ "/" ++ joinSegs l₂ := by
  induction l₁ with
  | nil => exact absurd rfl h₁
  | cons s rest ih =>
    cases rest with
    | nil =>
      cases l₂ with
      | nil => exact absurd rfl h₂
      | cons t ts => rfl
    | cons s' rest' =>
      have hrec := ih (by simp)
      show s ++ "/" ++ joinSegs (s' :: rest' ++ l₂)
          = s ++ "/" ++ joinSegs (s' :: rest') ++ "/" ++ joinSegs l₂
      rw [hrec]
      apply String.ext
      simp [String.data_append]

theorem splitPath_join (l : List String) (h : PlainL l) :
    splitPath (joinSegs l) = l := by
  induction l with
  | nil => rfl
  | cons s rest ih =>
    cases rest with
    | nil => exact splitPath_single s (h s (by simp))
    | cons s' rest' =>
      have hj : joinSegs (s :: s' :: rest') = s ++ "/" ++ joinSegs (s' :: rest') :=
        rfl
      rw [hj, splitPath_append, splitPath_single s (h s (by simp)),
        ih (fun t ht => h t (List.mem_cons_of_mem s ht))]
      rfl

theorem normStep_plain (b : Bool) (stack : List String) (s : String)
    (h : PlainSeg s) : normStep b stack s = s :: stack := by
  simp [normStep, h.1, h.2.1, h.2.2.1]

theorem foldl_normStep_plain (b : Bool) (l : List String) (h : PlainL l) :
    ∀ stack, l.foldl (normStep b) stack = l.reverse ++ stack := by
  induction l with
  | nil => intro stack; rfl
  | cons s rest ih =>
    intro stack
    rw [List.foldl_cons, normStep_plain b stack s (h s (by simp)),
      ih (fun t ht => h t (List.mem_cons_of_mem s ht))]
    simp

theorem normSegs_plain (b : Bool) (l : List String) (h : PlainL l) :
    normSegs b l = l := by
  unfold normSegs
  rw [foldl_normStep_plain b l h []]
  simp

theorem data_renderPath_true (segs : List String) :
    (renderPath true segs).data = '/' :: (joinSegs segs).data := by
  unfold renderPath
  rw [if_pos rfl, String.data_append]
  rfl

theorem isAbs_renderPath_true (segs : List String) :
    isAbsStr (renderPath true segs) = true := by
  unfold isAbsStr
  rw [data_renderPath_true]
  rfl

theorem splitPath_renderPath_true (segs : List String) (h : PlainL segs) :
    splitPath (renderPath true segs) = segs := by
  have hd : (renderPath true segs).data = [] ++ '/' :: (joinSegs segs).data :=
    data_renderPath_true segs
  unfold splitPath
  rw [hd, splitChars_append_slash]
  have : splitChars ([] : List Char) = [[]] := rfl
  rw [this]
  simp only [List.map_append, List.filter_append]
  have h2 : splitPath (joinSegs segs) = segs := splitPath_join segs h
  unfold splitPath at h2
  rw [h2]
  rfl

theorem renderPath_true_ne_empty (segs : List String) :
    renderPath true segs ≠ "" := by
  intro h
  have := congrArg String.data h
  rw [data_renderPath_true] at this
  exact List.cons_ne_nil _ _ this

/-- `path.join(uploadDir, rel)` in terms of the model: normalize the
    concatenated segments and render absolutely. -/
theorem pathJoin_root (R : List String) (hR : PlainL R) (rel : String) :
    pathJoin (renderPath true R) rel
      = renderPath true (normSegs true (R ++ splitPath rel)) := by
  unfold pathJoin
  rw [if_neg (renderPath_true_ne_empty R)]
  by_cases hrel : rel = ""
  · subst hrel
    rw [if_pos rfl]
    unfold pathNormalize
    rw [isAbs_renderPath_true, splitPath_renderPath_true R hR]
    simp [splitPath_empty]
  · rw [if_neg hrel]
    unfold pathNormalize
    have hd : (renderPath true R ++ "/" ++ rel).data
        = '/' :: ((joinSegs R ++ "/" ++ rel).data) := by
      rw [String.data_append, String.data_append, data_renderPath_true,
        String.data_append, String.data_append]
      rfl
    have habs : isAbsStr (renderPath true R ++ "/" ++ rel) = true := by
      unfold isAbsStr; rw [hd]; rfl
    rw [habs]
    have hsplit : splitPath (renderPath true R ++ "/" ++ rel)
        = R ++ splitPath rel := by
      rw [splitPath_append, splitPath_renderPath_true R hR]
    rw [hsplit]

theorem prefix_joinSegs (R S : List String) :
    (joinSegs R).data <+: (joinSegs (R ++ S)).data := by
  cases hR : R with
  | nil => simp [joinSegs]
  | cons r rs =>
    cases hS : S with
    | nil => simp
    | cons t ts =>
      rw [joinSegs_append (r :: rs) (t :: ts) (by simp) (by simp),
        String.data_append, String.data_append, List.append_assoc]
      exact List.prefix_append _ _

theorem jsStartsWith_render (R S : List String) :
    jsStartsWith (renderPath true (R ++ S)) (renderPath true R) = true := by
  unfold jsStartsWith
  rw [List.isPrefixOf_iff_prefix, data_renderPath_true, data_renderPath_true,
    List.cons_prefix_cons]
  exact ⟨rfl, prefix_joinSegs R S⟩

/-- Under plain segments the traversal guard passes and resolution is the
    literal concatenation. -/
theorem resolveAt_plain (R : List String) (hR : PlainL R) (rel : String)
    (hrel : PlainL (splitPath rel)) :
    resolveAt R rel = splitPath rel := by
  unfold resolveAt
  have hall : PlainL (R ++ splitPath rel) := by
    intro s hs
    rcases List.mem_append.mp hs with h | h
    · exact hR s h
    · exact hrel s h
  rw [normSegs_plain true _ hall, List.drop_left]

theorem prefixGuard_plain (R : List String) (hR : PlainL R) (rel : String)
    (hrel : PlainL (splitPath rel)) :
    prefixGuard (renderPath true R) rel = true := by
  unfold prefixGuard
  rw [pathJoin_root R hR rel]
  have hall : PlainL (R ++ splitPath rel) := by
    intro s hs
    rcases List.mem_append.mp hs with h | h
    · exact hR s h
    · exact hrel s h
  rw [normSegs_plain true _ hall]
  exact jsStartsWith_render R (splitPath rel)

/-! ## The effect of a segment list on normalization

`foldP` abstracts what a segment list does to any normalization stack: it
pops `k` entries from below (the `".."`s that fall through) and pushes `M`
(in reverse).  Relative normalization materializes the fallen-through
`".."`s; absolute normalization consumes root segments instead, clipping
at the root. -/

theorem normStep_skip (b : Bool) (stack : List String) (s : String)
    (h : s = "." ∨ s = "") : normStep b stack s = stack := by
  simp [normStep, h]

theorem normStep_push (b : Bool) (stack : List String) (s : String)
    (h1 : s ≠ ".") (h2 : s ≠ "") (h3 : s ≠ "..") :
    normStep b stack s = s :: stack := by
  simp [normStep, h1, h2, h3]

theorem normStep_dd_nil_true : normStep true [] ".." = [] := by
  simp [normStep]

theorem normStep_dd_cons (b : Bool) (top : String) (rest : List String)
    (h : top ≠ "..") : normStep b (top :: rest) ".." = rest := by
  simp [normStep, h]

theorem normStep_dd_rep_false (k : Nat) :
    normStep false (List.replicate k "..") ".." = List.replicate (k + 1) ".." := by
  cases k with
  | zero => simp [normStep]
  | succ j => simp [normStep, List.replicate_succ]

theorem foldP_cons_skip (seg : String) (rest : List String) (k : Nat)
    (M : List String) (h : seg = "." ∨ seg = "") :
    foldP (seg :: rest) (k, M) = foldP rest (k, M) := by
  simp [foldP, h]

theorem foldP_cons_dd_nil (rest : List String) (k : Nat) :
    foldP (".." :: rest) (k, []) = foldP rest (k + 1, []) := by
  simp [foldP]

theorem foldP_cons_dd_cons (rest : List String) (k : Nat) (m : String)
    (M₁ : List String) : foldP (".." :: rest) (k, m :: M₁) = foldP rest (k, M₁) := by
  simp [foldP]

theorem foldP_cons_push (seg : String) (rest : List String) (k : Nat)
    (M : List String) (h1 : seg ≠ ".") (h2 : seg ≠ "") (h3 : seg ≠ "..") :
    foldP (seg :: rest) (k, M) = foldP rest (k, seg :: M) := by
  simp [foldP, h1, h2, h3]

/-- Relative normalization realizes the abstract effect: the stack is the
    pushed part over `k` accumulated `".."`s. -/
theorem foldl_false_spec (P : List String) :
    ∀ (k : Nat) (M : List String), ".." ∉ M →
      P.foldl (normStep false) (M ++ List.replicate k "..")
          = (foldP P (k, M)).2 ++ List.replicate (foldP P (k, M)).1 ".."
        ∧ ".." ∉ (foldP P (k, M)).2 := by
  induction P with
  | nil => intro k M hM; exact ⟨rfl, hM⟩
  | cons seg rest ih =>
    intro k M hM
    by_cases h1 : seg = "." ∨ seg = ""
    · rw [List.foldl_cons, normStep_skip false _ seg h1, foldP_cons_skip _ _ _ _ h1]
      exact ih k M hM
    · push_neg at h1
      by_cases h2 : seg = ".."
      · subst h2
        cases M with
        | nil =>
          rw [List.foldl_cons, List.nil_append, normStep_dd_rep_false,
            foldP_cons_dd_nil]
          have := ih (k + 1) [] (by simp)
          rwa [List.nil_append] at this
        | cons m M₁ =>
          have hm : m ≠ ".." := fun he => hM (he ▸ List.mem_cons_self m M₁)
          rw [List.foldl_cons, List.cons_append, normStep_dd_cons false m _ hm,
            foldP_cons_dd_cons]
          exact ih k M₁ (fun hmem => hM (List.mem_cons_of_mem m hmem))
      · rw [List.foldl_cons, normStep_push false _ seg h1.1 h1.2 h2,
          foldP_cons_push seg rest k M h1.1 h1.2 h2]
        have hM' : ".." ∉ seg :: M := by
          intro hmem
          rcases List.mem_cons.mp hmem with h | h
          · exact h2 h.symm
          · exact hM h
        have := ih k (seg :: M) hM'
        rwa [List.cons_append] at this

/-- Absolute normalization realizes the same abstract effect, with the
    fallen-through `".."`s consuming the protected suffix `S` (the reversed
    root), clipped at its length. -/
theorem foldl_true_spec (P : List String) :
    ∀ (k : Nat) (M S : List String), ".." ∉ M → ".." ∉ S →
      P.foldl (normStep true) (M ++ S.drop (min k S.length))
        = (foldP P (k, M)).2 ++ S.drop (min (foldP P (k, M)).1 S.length) := by
  induction P with
  | nil => intro k M S hM hS; rfl
  | cons seg rest ih =>
    intro k M S hM hS
    by_cases h1 : seg = "." ∨ seg = ""
    · rw [List.foldl_cons, normStep_skip true _ seg h1, foldP_cons_skip _ _ _ _ h1]
      exact ih k M S hM hS
    · push_neg at h1
      by_cases h2 : seg = ".."
      · subst h2
        cases M with
        | nil =>
          rw [List.foldl_cons, List.nil_append, foldP_cons_dd_nil]
          cases hdrop : S.drop (min k S.length) with
          | nil =>
            have hlen : S.length ≤ min k S.length := List.drop_eq_nil_iff.mp hdrop
            have hlen2 : S.length ≤ min (k + 1) S.length := by
              rw [Nat.min_def] at hlen ⊢
              split at hlen <;> split <;> omega
            have hdrop2 : S.drop (min (k + 1) S.length) = [] :=
              List.drop_eq_nil_iff.mpr hlen2
            rw [normStep_dd_nil_true]
            have := ih (k + 1) [] S (by simp) hS
            rwa [List.nil_append, hdrop2] at this
          | cons s tail =>
            have hs : s ≠ ".." := fun he =>
              hS (he ▸ List.mem_of_mem_drop (hdrop ▸ List.mem_cons_self s tail))
            have hjlt : min k S.length < S.length := by
              by_contra hge
              push_neg at hge
              have : S.drop (min k S.length) = [] := List.drop_eq_nil_iff.mpr hge
              rw [this] at hdrop
              exact List.noConfusion hdrop
            have hkeq : min k S.length = k := by
              rw [Nat.min_def] at hjlt ⊢
              split at hjlt <;> split <;> omega
            have hmin2 : min (k + 1) S.length = k + 1 := by
              rw [Nat.min_def]
              rw [hkeq] at hjlt
              split <;> omega
            have htail : tail = S.drop (min (k + 1) S.length) := by
              have h1' : (S.drop (min k S.length)).drop 1 = S.drop (min k S.length + 1) := by
                rw [List.drop_drop]
              rw [hdrop] at h1'
              simp only [List.drop_succ_cons, List.drop_zero] at h1'
              rw [hmin2, ← hkeq]
              exact h1'
            rw [normStep_dd_cons true s tail hs]
            have := ih (k + 1) [] S (by simp) hS
            rw [List.nil_append, ← htail] at this
            exact this
        | cons m M₁ =>
          have hm : m ≠ ".." := fun he => hM (he ▸ List.mem_cons_self m M₁)
          rw [List.foldl_cons, List.cons_append, normStep_dd_cons true m _ hm,
            foldP_cons_dd_cons]
          exact ih k M₁ S (fun hmem => hM (List.mem_cons_of_mem m hmem)) hS
      · rw [List.foldl_cons, normStep_push true _ seg h1.1 h1.2 h2,
          foldP_cons_push seg rest k M h1.1 h1.2 h2]
        have hM' : ".." ∉ seg :: M := by
          intro hmem
          rcases List.mem_cons.mp hmem with h | h
          · exact h2 h.symm
          · exact hM h
        have := ih k (seg :: M) S hM' hS
        rwa [List.cons_append] at this

theorem notMem_dd_of_plain (R : List String) (hR : PlainL R) : ".." ∉ R :=
  fun h => (hR ".." h).2.2.1 rfl

theorem foldl_true_root (R P : List String) (hR : PlainL R) :
    (R ++ P).foldl (normStep true) []
      = (foldP P (0, [])).2
        ++ R.reverse.drop (min (foldP P (0, [])).1 R.reverse.length) := by
  rw [List.foldl_append]
  have hbase : R.foldl (normStep true) [] = R.reverse := by
    rw [foldl_normStep_plain true R hR []]
    simp
  rw [hbase]
  have hrev : ".." ∉ R.reverse := by
    intro h
    exact notMem_dd_of_plain R hR (List.mem_reverse.mp h)
  have := foldl_true_spec P 0 [] R.reverse (by simp) hrev
  rw [List.nil_append] at this
  rw [Nat.zero_min, List.drop_zero] at this
  exact this

theorem normSegs_true_root (R P : List String) (hR : PlainL R) :
    normSegs true (R ++ P)
      = R.take (R.length - (foldP P (0, [])).1) ++ (foldP P (0, [])).2.reverse := by
  unfold normSegs
  rw [foldl_true_root R P hR, List.reverse_append]
  have hdrop : (R.reverse.drop (min (foldP P (0, [])).1 R.reverse.length)).reverse
      = R.take (R.length - (foldP P (0, [])).1) := by
    rw [List.drop_reverse, List.reverse_reverse, List.length_reverse]
    congr 1
    rw [Nat.min_def]
    split <;> omega
  rw [hdrop]

theorem normSegs_false_eq (P : List String) :
    normSegs false P
      = List.replicate (foldP P (0, [])).1 ".." ++ (foldP P (0, [])).2.reverse := by
  unfold normSegs
  have := (foldl_false_spec P 0 [] (by simp)).1
  simp only [List.replicate_zero, List.append_nil, List.nil_append] at this
  rw [this, List.reverse_append, List.reverse_replicate]

theorem escape_k_pos (R : List String) (hR : PlainL R) (P : List String)
    (hesc : ¬ (R <+: normSegs true (R ++ P))) : 1 ≤ (foldP P (0, [])).1 := by
  by_contra h
  push_neg at h
  have hk0 : (foldP P (0, [])).1 = 0 := by omega
  apply hesc
  rw [normSegs_true_root R P hR, hk0, Nat.sub_zero, List.take_length]
  exact List.prefix_append R _

theorem escape_normalize_rel (P : List String) (hk : 1 ≤ (foldP P (0, [])).1) :
    ∃ rest, normSegs false P = ".." :: rest := by
  rw [normSegs_false_eq]
  cases hk' : (foldP P (0, [])).1 with
  | zero => omega
  | succ j =>
    exact ⟨List.replicate j ".." ++ (foldP P (0, [])).2.reverse,
      by rw [List.replicate_succ, List.cons_append]⟩

theorem startsWith_dotdot (rest : List String) :
    jsStartsWith (joinSegs (".." :: rest)) ".." = true := by
  cases rest with
  | nil => rfl
  | cons t ts =>
    show jsStartsWith (".." ++ "/" ++ joinSegs (t :: ts)) ".." = true
    unfold jsStartsWith
    rw [List.isPrefixOf_iff_prefix, String.data_append, String.data_append,
      List.append_assoc]
    exact List.prefix_append _ _

/-- On any escaping client path the normalization check of `GET /api/files`
    fires. -/
theorem listCheck_escape (R : List String) (hR : PlainL R) (rel : String)
    (hesc : escapesRoot R rel) :
    (jsStartsWith (pathNormalize rel) ".." || isAbsStr (pathNormalize rel)) = true := by
  by_cases habs : isAbsStr rel = true
  · unfold pathNormalize
    rw [habs, isAbs_renderPath_true]
    simp
  · have habs' : isAbsStr rel = false := by
      simpa using habs
    have hk := escape_k_pos R hR (splitPath rel) hesc
    obtain ⟨rest, hrest⟩ := escape_normalize_rel (splitPath rel) hk
    unfold pathNormalize
    rw [habs', hrest]
    have hr : renderPath false (".." :: rest) = joinSegs (".." :: rest) := by
      unfold renderPath
      simp
    rw [hr, startsWith_dotdot]
    simp

/-! ## Correctness of the Name Allocator -/

theorem digitVal_decDigitChar : ∀ d, d < 10 → digitVal (decDigitChar d) = d := by
  decide

theorem valOf_decDigitsAux : ∀ fuel n, n ≤ fuel → valOf (decDigitsAux fuel n) = n := by
  intro fuel
  induction fuel with
  | zero =>
    intro n hn
    have : n = 0 := Nat.le_zero.mp hn
    subst this
    rfl
  | succ f ih =>
    intro n hn
    cases n with
    | zero => rfl
    | succ m =>
      show valOf (decDigitChar ((m + 1) % 10) :: decDigitsAux f ((m + 1) / 10)) = m + 1
      show digitVal (decDigitChar ((m + 1) % 10)) + 10 * valOf (decDigitsAux f ((m + 1) / 10)) = m + 1
      rw [digitVal_decDigitChar _ (Nat.mod_lt _ (by omega)),
        ih ((m + 1) / 10) (by
          have := Nat.div_lt_self (Nat.succ_pos m) (by omega : 1 < 10)
          omega)]
      exact Nat.mod_add_div (m + 1) 10

theorem decDigitsAux_self_ne_nil (n : Nat) (h : 0 < n) :
    decDigitsAux n n ≠ [] := by
  cases n with
  | zero => omega
  | succ m => simp [decDigitsAux]

theorem decimal_inj : Function.Injective decimal := by
  intro a b hab
  by_cases ha : a = 0 <;> by_cases hb : b = 0
  · omega
  · exfalso
    have hd := congrArg String.data hab
    rw [show decimal a = "0" by rw [ha]; rfl] at hd
    have hb' : decimal b = ⟨(decDigitsAux b b).reverse⟩ := by
      unfold decimal
      rw [if_neg hb]
    rw [hb'] at hd
    have : (decDigitsAux b b) = ['0'] := by
      have := congrArg List.reverse hd
      simpa using this.symm
    have hv := valOf_decDigitsAux b b le_rfl
    rw [this] at hv
    have : valOf ['0'] = 0 := by decide
    omega
  · exfalso
    have hd := congrArg String.data hab
    rw [show decimal b = "0" by rw [hb]; rfl] at hd
    have ha' : decimal a = ⟨(decDigitsAux a a).reverse⟩ := by
      unfold decimal
      rw [if_neg ha]
    rw [ha'] at hd
    have : (decDigitsAux a a) = ['0'] := by
      have := congrArg List.reverse hd
      simpa using this
    have hv := valOf_decDigitsAux a a le_rfl
    rw [this] at hv
    have : valOf ['0'] = 0 := by decide
    omega
  · have ha' : decimal a = ⟨(decDigitsAux a a).reverse⟩ := by
      unfold decimal; rw [if_neg ha]
    have hb' : decimal b = ⟨(decDigitsAux b b).reverse⟩ := by
      unfold decimal; rw [if_neg hb]
    have hd := congrArg String.data hab
    rw [ha', hb'] at hd
    have hlists : decDigitsAux a a = decDigitsAux b b := by
      have := congrArg List.reverse hd
      simpa using this
    have hva := valOf_decDigitsAux a a le_rfl
    have hvb := valOf_decDigitsAux b b le_rfl
    rw [hlists] at hva
    omega

theorem decimal_data_ne_nil (n : Nat) : (decimal n).data ≠ [] := by
  by_cases hn : n = 0
  · subst hn
    simp [decimal]
  · unfold decimal
    rw [if_neg hn]
    show (decDigitsAux n n).reverse ≠ []
    intro h
    exact decDigitsAux_self_ne_nil n (by omega) (by simpa using h)

theorem probeName_inj (stem ext : String) : Function.Injective (probeName stem ext) := by
  intro i j hij
  rcases i with _ | i <;> rcases j with _ | j
  · rfl
  · exfalso
    have hd := congrArg (fun s => s.data.length) hij
    simp only [probeName, String.data_append] at hd
    simp only [List.length_append] at hd
    have := decimal_data_ne_nil (j + 1)
    have : 0 < (decimal (j + 1)).data.length := List.length_pos.mpr this
    have h2 : (" (" : String).data.length = 2 := rfl
    have h3 : (")" : String).data.length = 1 := rfl
    omega
  · exfalso
    have hd := congrArg (fun s => s.data.length) hij
    simp only [probeName, String.data_append] at hd
    simp only [List.length_append] at hd
    have := decimal_data_ne_nil (i + 1)
    have : 0 < (decimal (i + 1)).data.length := List.length_pos.mpr this
    have h2 : (" (" : String).data.length = 2 := rfl
    have h3 : (")" : String).data.length = 1 := rfl
    omega
  · have hd := congrArg String.data hij
    simp only [probeName, String.data_append, List.append_assoc] at hd
    have h1 := List.append_cancel_left hd
    have h2 := List.append_cancel_left h1
    have h3 : ((decimal (i + 1)).data ++ [')']) ++ ext.data
        = ((decimal (j + 1)).data ++ [')']) ++ ext.data := by
      rw [List.append_assoc, List.append_assoc]
      exact h2
    have h4 := List.append_cancel_right (List.append_cancel_right h3)
    have h5 : decimal (i + 1) = decimal (j + 1) := String.ext h4
    have := decimal_inj h5
    omega

theorem allocFrom_first_free (taken : List String) (stem ext : String) :
    ∀ (fuel k m : Nat), k ≤ m → m - k ≤ fuel →
      (∀ j, k ≤ j → j < m → probeName stem ext j ∈ taken) →
      probeName stem ext m ∉ taken →
      allocFrom taken stem ext fuel k = probeName stem ext m := by
  intro fuel
  induction fuel with
  | zero =>
    intro k m hkm hmk _ _
    have : k = m := by omega
    rw [this]
    rfl
  | succ f ih =>
    intro k m hkm hmk hall hfree
    by_cases hk : k = m
    · subst hk
      show (if probeName stem ext k ∈ taken then _ else probeName stem ext k)
          = probeName stem ext k
      rw [if_neg hfree]
    · have hklt : k < m := by omega
      show (if probeName stem ext k ∈ taken then allocFrom taken stem ext f (k + 1)
            else probeName stem ext k) = probeName stem ext m
      rw [if_pos (hall k le_rfl hklt)]
      exact ih (k + 1) m (by omega) (by omega)
        (fun j hj hjm => hall j (by omega) hjm) hfree

theorem exists_free_probe (taken : List String) (stem ext : String) :
    ∃ m, m ≤ taken.length ∧ probeName stem ext m ∉ taken := by
  by_contra h
  push_neg at h
  have hsub : ∀ x ∈ (List.range (taken.length + 1)).map (probeName stem ext),
      x ∈ taken := by
    intro x hx
    obtain ⟨j, hj, rfl⟩ := List.mem_map.mp hx
    exact h j (Nat.lt_succ_iff.mp (List.mem_range.mp hj))
  have hnd : ((List.range (taken.length + 1)).map (probeName stem ext)).Nodup :=
    (List.nodup_range (taken.length + 1)).map (probeName_inj stem ext)
  have h1 : ((List.range (taken.length + 1)).map (probeName stem ext)).toFinset.card
      = taken.length + 1 := by
    rw [List.toFinset_card_of_nodup hnd]
    simp
  have h2 : ((List.range (taken.length + 1)).map (probeName stem ext)).toFinset
      ⊆ taken.toFinset := by
    intro x hx
    rw [List.mem_toFinset] at hx ⊢
    exact hsub x hx
  have h3 := Finset.card_le_card h2
  have h4 := List.toFinset_card_le taken
  omega

/-- The allocator returns the first unused probe: there is an `m` such that
    the result is `probeName m`, `probeName m` is unused, and every earlier
    probe is taken. -/
theorem allocateName_least (taken : List String) (stem ext : String) :
    ∃ m, allocateName taken stem ext = probeName stem ext m ∧
      probeName stem ext m ∉ taken ∧
      ∀ j, j < m → probeName stem ext j ∈ taken := by
  obtain ⟨m0, hm0le, hm0free⟩ := exists_free_probe taken stem ext
  have hex : ∃ m, probeName stem ext m ∉ taken := ⟨m0, hm0free⟩
  refine ⟨Nat.find hex, ?_, Nat.find_spec hex, fun j hj => ?_⟩
  · apply allocFrom_first_free taken stem ext (taken.length + 1) 0 (Nat.find hex)
      (Nat.zero_le _)
      (by have := Nat.find_min' hex hm0free; omega)
      (fun j _ hjm => not_not.mp (Nat.find_min hex hjm))
      (Nat.find_spec hex)
  · exact not_not.mp (Nat.find_min hex hj)

theorem allocateName_base_free (taken : List String) (stem ext : String)
    (h : stem ++ ext ∉ taken) : allocateName taken stem ext = stem ++ ext := by
  show (if probeName stem ext 0 ∈ taken then allocFrom taken stem ext taken.length 1
        else probeName stem ext 0) = stem ++ ext
  rw [if_neg (by exact h)]
  rfl

theorem probeName_not_mem_map_range (stem ext : String) (n : Nat) :
    probeName stem ext n ∉ (List.range n).map (probeName stem ext) := by
  intro h
  obtain ⟨j, hj, hje⟩ := List.mem_map.mp h
  have := probeName_inj stem ext hje
  rw [this] at hj
  exact absurd (List.mem_range.mp hj) (lt_irrefl n)

theorem allocSeq_eq (stem ext : String) (N : Nat) :
    allocSeq stem ext N = (List.range N).map (probeName stem ext) := by
  induction N with
  | zero => rfl
  | succ n ih =>
    show allocSeq stem ext n ++ [allocateName (allocSeq stem ext n) stem ext] = _
    rw [ih]
    have halloc : allocateName ((List.range n).map (probeName stem ext)) stem ext
        = probeName stem ext n := by
      unfold allocateName
      rw [List.length_map, List.length_range]
      apply allocFrom_first_free ((List.range n).map (probeName stem ext)) stem ext
        (n + 1) 0 n (Nat.zero_le n) (by omega)
      · intro j _ hjn
        exact List.mem_map.mpr ⟨j, List.mem_range.mpr hjn, rfl⟩
      · exact probeName_not_mem_map_range stem ext n
    rw [halloc, List.range_succ, List.map_append]
    rfl

/-! ## Facts about the filesystem-tree operations -/

theorem find?_nil (fs : FsEntry) : fs.find? [] = some fs := by
  cases fs <;> rfl

theorem find?_file_cons (sz : Nat) (seg : String) (rest : List String) :
    (FsEntry.file sz).find? (seg :: rest) = none := rfl

theorem find?_dir_cons (ch : List (String × FsEntry)) (seg : String)
    (rest : List String) :
    (FsEntry.dir ch).find? (seg :: rest)
      = (childGet ch seg).bind (fun e => e.find? rest) := by
  show (match childGet ch seg with
        | none => none
        | some e => e.find? rest) = _
  cases childGet ch seg <;> rfl

theorem childGet_cons (c : String × FsEntry) (rest : List (String × FsEntry))
    (n : String) :
    childGet (c :: rest) n = if c.1 = n then some c.2 else childGet rest n := by
  rcases c with ⟨m, e⟩
  rfl

theorem childGet_filter_ne (ch : List (String × FsEntry)) (name : String) :
    childGet (ch.filter (fun c => c.1 ≠ name)) name = none := by
  induction ch with
  | nil => rfl
  | cons c rest ih =>
    rw [List.filter_cons]
    by_cases hc : c.1 = name
    · rw [if_neg (by simp [hc])]
      exact ih
    · rw [if_pos (by simp [hc]), childGet_cons, if_neg hc]
      exact ih

theorem childGet_map_if (ch : List (String × FsEntry)) (seg : String)
    (g : FsEntry → FsEntry) :
    childGet (ch.map (fun c => if c.1 = seg then (c.1, g c.2) else c)) seg
      = (childGet ch seg).map g := by
  induction ch with
  | nil => rfl
  | cons c rest ih =>
    rw [List.map_cons, childGet_cons c rest seg]
    by_cases hc : c.1 = seg
    · rw [if_pos hc, if_pos hc, childGet_cons, if_pos hc]
      rfl
    · rw [if_neg hc, if_neg hc, childGet_cons, if_neg hc]
      exact ih

theorem childGet_append_none (ch l : List (String × FsEntry)) (seg : String)
    (h : childGet ch seg = none) : childGet (ch ++ l) seg = childGet l seg := by
  induction ch with
  | nil => rfl
  | cons c rest ih =>
    rw [childGet_cons] at h
    by_cases hc : c.1 = seg
    · rw [if_pos hc] at h
      exact Option.noConfusion h
    · rw [if_neg hc] at h
      show childGet (c :: (rest ++ l)) seg = childGet l seg
      rw [childGet_cons, if_neg hc]
      exact ih h

theorem removeEntry_dir_cons2 (ch : List (String × FsEntry)) (seg : String)
    (rest : List String) (hrest : rest ≠ []) :
    removeEntry (.dir ch) (seg :: rest)
      = .dir (ch.map (fun c => if c.1 = seg then (c.1, removeEntry c.2 rest) else c)) := by
  cases rest with
  | nil => exact absurd rfl hrest
  | cons a b => rfl

theorem find?_removeEntry (fs : FsEntry) (p : List String) (e : FsEntry)
    (hne : p ≠ []) (h : fs.find? p = some e) :
    (removeEntry fs p).find? p = none := by
  induction p generalizing fs with
  | nil => exact absurd rfl hne
  | cons seg rest ih =>
    cases fs with
    | file sz => rw [find?_file_cons] at h; exact Option.noConfusion h
    | dir ch =>
      rw [find?_dir_cons] at h
      cases hc : childGet ch seg with
      | none => rw [hc] at h; exact Option.noConfusion h
      | some e' =>
        rw [hc, Option.some_bind] at h
        cases rest with
        | nil =>
          show (FsEntry.dir (ch.filter (fun c => c.1 ≠ seg))).find? [seg] = none
          rw [find?_dir_cons, childGet_filter_ne]
          rfl
        | cons s2 rest2 =>
          rw [removeEntry_dir_cons2 ch seg (s2 :: rest2) (by simp),
            find?_dir_cons]
          have hcg := childGet_map_if ch seg (fun x => removeEntry x (s2 :: rest2))
          simp only at hcg
          rw [hcg, hc, Option.map_some', Option.some_bind]
          exact ih e' (by simp) h

theorem find?_removeEntry_parent (fs : FsEntry) (q : List String) (name : String)
    (ch : List (String × FsEntry)) (h : fs.find? q = some (.dir ch)) :
    (removeEntry fs (q ++ [name])).find? q
      = some (.dir (ch.filter (fun c => c.1 ≠ name))) := by
  induction q generalizing fs with
  | nil =>
    rw [find?_nil] at h
    have : fs = .dir ch := Option.some.inj h
    subst this
    rw [List.nil_append]
    show (removeEntry (FsEntry.dir ch) [name]).find? [] = _
    rw [find?_nil]
    rfl
  | cons s q' ih =>
    cases fs with
    | file sz => rw [find?_file_cons] at h; exact Option.noConfusion h
    | dir ch₀ =>
      rw [find?_dir_cons] at h
      cases hc : childGet ch₀ s with
      | none => rw [hc] at h; exact Option.noConfusion h
      | some e' =>
        rw [hc, Option.some_bind] at h
        rw [List.cons_append,
          removeEntry_dir_cons2 ch₀ s (q' ++ [name]) (by simp),
          find?_dir_cons]
        have hcg := childGet_map_if ch₀ s (fun x => removeEntry x (q' ++ [name]))
        simp only at hcg
        rw [hcg, hc, Option.map_some', Option.some_bind]
        exact ih e' h

theorem mapAt_nil (fs : FsEntry) (f : FsEntry → FsEntry) : mapAt fs [] f = f fs := by
  cases fs <;> rfl

theorem find?_mapAt (fs : FsEntry) (p : List String) (f : FsEntry → FsEntry)
    (e : FsEntry) (h : fs.find? p = some e) :
    (mapAt fs p f).find? p = some (f e) := by
  induction p generalizing fs with
  | nil =>
    rw [find?_nil] at h
    have hfe : fs = e := Option.some.inj h
    subst hfe
    rw [mapAt_nil, find?_nil]
  | cons seg rest ih =>
    cases fs with
    | file sz => rw [find?_file_cons] at h; exact Option.noConfusion h
    | dir ch =>
      rw [find?_dir_cons] at h
      cases hc : childGet ch seg with
      | none => rw [hc] at h; exact Option.noConfusion h
      | some e' =>
        rw [hc, Option.some_bind] at h
        show (FsEntry.dir (ch.map (fun c =>
            if c.1 = seg then (c.1, mapAt c.2 rest f) else c))).find?
          (seg :: rest) = some (f e)
        rw [find?_dir_cons]
        have hcg := childGet_map_if ch seg (fun x => mapAt x rest f)
        simp only at hcg
        rw [hcg, hc, Option.map_some', Option.some_bind]
        exact ih e' h

theorem ensureDir_file (sz : Nat) (p : List String) :
    ensureDir (.file sz) p = none := by
  cases p <;> rfl

theorem ensureDir_dir_cons (ch : List (String × FsEntry)) (seg : String)
    (rest : List String) :
    ensureDir (.dir ch) (seg :: rest)
      = match childGet ch seg with
        | some e => (ensureDir e rest).map (fun e' =>
            FsEntry.dir (ch.map (fun c => if c.1 = seg then (c.1, e') else c)))
        | none => (ensureDir (.dir []) rest).map
            (fun e' => FsEntry.dir (ch ++ [(seg, e')])) := rfl

theorem ensureDir_dir_cons_some (ch : List (String × FsEntry)) (seg : String)
    (rest : List String) (e : FsEntry) (hc : childGet ch seg = some e) :
    ensureDir (.dir ch) (seg :: rest)
      = (ensureDir e rest).map (fun e' =>
          FsEntry.dir (ch.map (fun c => if c.1 = seg then (c.1, e') else c))) := by
  rw [ensureDir_dir_cons, hc]

theorem ensureDir_dir_cons_none (ch : List (String × FsEntry)) (seg : String)
    (rest : List String) (hc : childGet ch seg = none) :
    ensureDir (.dir ch) (seg :: rest)
      = (ensureDir (.dir []) rest).map (fun e' => FsEntry.dir (ch ++ [(seg, e')])) := by
  rw [ensureDir_dir_cons, hc]

theorem find?_ensureDir (fs fs' : FsEntry) (p : List String)
    (h : ensureDir fs p = some fs') :
    ∃ ch, fs'.find? p = some (.dir ch) := by
  induction p generalizing fs fs' with
  | nil =>
    cases fs with
    | file sz => exact absurd h (by rw [ensureDir_file]; exact Option.noConfusion)
    | dir ch =>
      have : fs' = .dir ch := (Option.some.inj h).symm
      subst this
      exact ⟨ch, find?_nil _⟩
  | cons seg rest ih =>
    cases fs with
    | file sz => exact absurd h (by rw [ensureDir_file]; exact Option.noConfusion)
    | dir ch =>
      cases hc : childGet ch seg with
      | some e =>
        rw [ensureDir_dir_cons_some ch seg rest e hc] at h
        cases he : ensureDir e rest with
        | none => rw [he] at h; exact Option.noConfusion h
        | some e₂ =>
          rw [he, Option.map_some'] at h
          have hfs' : fs' = .dir (ch.map (fun c =>
              if c.1 = seg then (c.1, e₂) else c)) := (Option.some.inj h).symm
          subst hfs'
          obtain ⟨ch₂, hch₂⟩ := ih e e₂ he
          refine ⟨ch₂, ?_⟩
          rw [find?_dir_cons]
          have hcg := childGet_map_if ch seg (fun _ => e₂)
          simp only at hcg
          rw [hcg, hc, Option.map_some', Option.some_bind]
          exact hch₂
      | none =>
        rw [ensureDir_dir_cons_none ch seg rest hc] at h
        cases he : ensureDir (.dir []) rest with
        | none => rw [he] at h; exact Option.noConfusion h
        | some e₂ =>
          rw [he, Option.map_some'] at h
          have hfs' : fs' = .dir (ch ++ [(seg, e₂)]) := (Option.some.inj h).symm
          subst hfs'
          obtain ⟨ch₂, hch₂⟩ := ih _ e₂ he
          refine ⟨ch₂, ?_⟩
          rw [find?_dir_cons, childGet_append_none ch _ seg hc, childGet_cons]
          rw [if_pos rfl, Option.some_bind]
          exact hch₂

theorem childGet_map_rename_gone (ch : List (String × FsEntry))
    (oldName newName : String) (h : newName ≠ oldName) :
    childGet (ch.map (fun c => if c.1 = oldName then (newName, c.2) else c))
      oldName = none := by
  induction ch with
  | nil => rfl
  | cons c rest ih =>
    rw [List.map_cons]
    by_cases hc : c.1 = oldName
    · rw [if_pos hc, childGet_cons, if_neg h]
      exact ih
    · rw [if_neg hc, childGet_cons, if_neg hc]
      exact ih

theorem childGet_map_rename_new (ch : List (String × FsEntry))
    (oldName newName : String) (e : FsEntry)
    (hnew : childGet ch newName = none) (hold : childGet ch oldName = some e) :
    childGet (ch.map (fun c => if c.1 = oldName then (newName, c.2) else c))
      newName = some e := by
  induction ch with
  | nil => exact Option.noConfusion hold
  | cons c rest ih =>
    rw [childGet_cons] at hnew hold
    rw [List.map_cons]
    by_cases hc : c.1 = oldName
    · rw [if_pos hc] at hold
      rw [if_pos hc, childGet_cons, if_pos rfl]
      exact congrArg some (Option.some.inj hold)
    · rw [if_neg hc] at hold
      have hcnew : ¬ c.1 = newName := by
        intro hcn
        rw [if_pos hcn] at hnew
        exact Option.noConfusion hnew
      rw [if_neg hcnew] at hnew
      rw [if_neg hc, childGet_cons, if_neg hcnew]
      exact ih hnew hold

/-! ## The `GET /api/files` security check on ordinary paths -/

theorem joinSegs_cons_data (s : String) (rest : List String) :
    ∃ t, (joinSegs (s :: rest)).data = s.data ++ t := by
  cases rest with
  | nil => exact ⟨[], by show s.data = s.data ++ []; simp⟩
  | cons r rs =>
    refine ⟨'/' :: (joinSegs (r :: rs)).data, ?_⟩
    show (s ++ "/" ++ joinSegs (r :: rs)).data = _
    rw [String.data_append, String.data_append]
    simp

theorem isAbs_renderPath_false (P : List String) (hP : PlainL P) :
    isAbsStr (renderPath false P) = false := by
  cases P with
  | nil => rfl
  | cons s rest =>
    have hplain := hP s (by simp)
    have hrp : renderPath false (s :: rest) = joinSegs (s :: rest) := by
      unfold renderPath
      simp
    rw [hrp]
    obtain ⟨t, ht⟩ := joinSegs_cons_data s rest
    cases hs : s.data with
    | nil => exact absurd ((string_eq_empty_iff s).mpr hs) hplain.1
    | cons c cs =>
      have hc : c ≠ '/' := fun he =>
        hplain.2.2.2 (by rw [hs, he]; exact List.mem_cons_self _ _)
      unfold isAbsStr
      rw [ht, hs]
      show decide (c = '/') = false
      simp [hc]

theorem jsStartsWith_dd_false (w s : String) (t : List Char)
    (hw : w.data = s.data ++ t)
    (hne : s ≠ "") (hdot : s ≠ ".") (hnd : ¬ (['.', '.'] <+: s.data)) :
    jsStartsWith w ".." = false := by
  rw [Bool.eq_false_iff]
  intro hpre
  unfold jsStartsWith at hpre
  rw [List.isPrefixOf_iff_prefix, hw] at hpre
  have h2 : (['.', '.'] : List Char) <+: s.data ++ t := hpre
  cases hs : s.data with
  | nil => exact hne ((string_eq_empty_iff s).mpr hs)
  | cons c cs =>
    rw [hs, List.cons_append] at h2
    obtain ⟨hc, h3⟩ := List.cons_prefix_cons.mp h2
    cases hcs : cs with
    | nil =>
      apply hdot
      apply String.ext
      rw [hs, hcs, ← hc]
    | cons c2 cs2 =>
      rw [hcs, List.cons_append] at h3
      obtain ⟨hc2, _⟩ := List.cons_prefix_cons.mp h3
      apply hnd
      rw [hs, hcs, ← hc, ← hc2]
      exact ⟨cs2, rfl⟩

/-- On an ordinary relative path (plain slash-free segments, not absolute,
    first segment not beginning with two dots) the normalization check of
    `GET /api/files` does not fire. -/
theorem listCheck_plain (p : String) (hp : PlainL (splitPath p))
    (habs : isAbsStr p = false) (hnd : headNoDots (splitPath p)) :
    (jsStartsWith (pathNormalize p) ".." || isAbsStr (pathNormalize p)) = false := by
  unfold pathNormalize
  rw [habs, normSegs_plain false _ hp]
  rw [isAbs_renderPath_false _ hp]
  cases hsp : splitPath p with
  | nil => decide
  | cons s rest =>
    have hplain : PlainSeg s := by
      rw [hsp] at hp
      exact hp s (by simp)
    have hh : ¬ (['.', '.'] <+: s.data) := by
      rw [hsp] at hnd
      exact hnd
    have hrp : renderPath false (s :: rest) = joinSegs (s :: rest) := by
      unfold renderPath
      simp
    rw [hrp]
    obtain ⟨t, ht⟩ := joinSegs_cons_data s rest
    rw [jsStartsWith_dd_false (joinSegs (s :: rest)) s t ht hplain.1 hplain.2.1 hh]
    rfl

theorem mem_insertLE {α : Type} (le : α → α → Bool) (x y : α) (l : List α) :
    x ∈ insertLE le y l ↔ x = y ∨ x ∈ l := by
  induction l with
  | nil => simp [insertLE]
  | cons z zs ih =>
    unfold insertLE
    by_cases h : le y z = true
    · rw [if_pos h]
      simp
    · rw [if_neg h]
      simp only [List.mem_cons, ih]
      tauto

theorem mem_sortByLE {α : Type} (le : α → α → Bool) (x : α) (l : List α) :
    x ∈ sortByLE le l ↔ x ∈ l := by
  induction l with
  | nil => simp [sortByLE]
  | cons y ys ih =>
    unfold sortByLE
    rw [mem_insertLE, ih]
    simp

/-! ## Evaluation of the routes on ordinary in-root paths -/

theorem deleteRoute_eq (R : List String) (fs : FsEntry) (p : String)
    (hR : PlainL R) (hp : PlainL (splitPath p)) (hpne : p ≠ "") :
    deleteRoute R fs p =
      match fs.find? (splitPath p) with
      | none => (.err 404 "File/folder not found", fs)
      | some (.dir ch) =>
        if ch.length > 0 then
          (.err 400 "Folder is not empty. Delete contents first or use force delete.",
           fs)
        else (.ok ⟨p⟩, removeEntry fs (splitPath p))
      | some (.file _) => (.ok ⟨p⟩, removeEntry fs (splitPath p)) := by
  unfold deleteRoute
  rw [if_neg hpne, prefixGuard_plain R hR p hp, resolveAt_plain R hR p hp]
  simp

theorem deleteForceRoute_eq (R : List String) (fs : FsEntry) (p : String)
    (hR : PlainL R) (hp : PlainL (splitPath p)) (hpne : p ≠ "") :
    deleteForceRoute R fs p =
      match fs.find? (splitPath p) with
      | none => (.err 404 "File/folder not found", fs)
      | some _ => (.ok ⟨p⟩, removeEntry fs (splitPath p)) := by
  unfold deleteForceRoute
  rw [if_neg hpne, prefixGuard_plain R hR p hp, resolveAt_plain R hR p hp]
  simp

theorem listFilesRoute_eq (R : List String) (fs : FsEntry) (p : String)
    (hp : PlainL (splitPath p)) (habs : isAbsStr p = false)
    (hnd : headNoDots (splitPath p)) :
    listFilesRoute R fs p =
      match fs.find? (resolveAt R p) with
      | none =>
        .ok { files := [], currentPath := p, parentPath := getParentPath p,
              totalItems := none, totalSize := none }
      | some (.file _) => .err 400 "Path is not a directory"
      | some (.dir ch) =>
        let result := sortByLE entryLE (ch.map (mkDirEntry p))
        .ok { files := result, currentPath := p, parentPath := getParentPath p,
              totalItems := some result.length,
              totalSize := some (result.foldl (fun acc it => acc + it.size.getD 0) 0) } := by
  unfold listFilesRoute
  dsimp only
  rw [listCheck_plain p hp habs hnd]
  simp

theorem resolveAt2_plain (R : List String) (hR : PlainL R) (cur name : String)
    (hcur : PlainL (splitPath cur)) (hname : PlainSeg name) :
    resolveAt2 R cur name = splitPath cur ++ [name] := by
  unfold resolveAt2
  rw [splitPath_single name hname]
  have hall : PlainL (R ++ splitPath cur ++ [name]) := by
    intro s hs
    rcases List.mem_append.mp hs with hs | hs
    · rcases List.mem_append.mp hs with hs | hs
      · exact hR s hs
      · exact hcur s hs
    · rw [List.mem_singleton.mp hs]
      exact hname
  rw [normSegs_plain true _ hall, List.append_assoc, List.drop_left]

theorem createFolderRoute_eq (R : List String) (fs : FsEntry)
    (cur folderName : String) (hR : PlainL R) (hcur : PlainL (splitPath cur))
    (hfn : jsTrim folderName ≠ "")
    (hsan : PlainSeg (jsTrim (jsSanitize folderName))) :
    createFolderRoute R fs cur folderName =
      (if (fs.find? (splitPath cur ++ [jsTrim (jsSanitize folderName)])).isSome then
        (.err 409 "Folder already exists", fs)
      else
        match ensureDir fs (splitPath cur ++ [jsTrim (jsSanitize folderName)]) with
        | none => (.err 500 "Internal server error", fs)
        | some fs' =>
          (.ok ⟨jsTrim (jsSanitize folderName),
                joinSegs (splitPath cur ++ [jsTrim (jsSanitize folderName)])⟩, fs')) := by
  unfold createFolderRoute
  have hc1 : ¬ (folderName = "" ∨ jsTrim folderName = "") := by
    rintro (h | h)
    · exact hfn (by rw [h]; rfl)
    · exact hfn h
  rw [if_neg hc1]
  dsimp only
  rw [if_neg hsan.1, resolveAt2_plain R hR cur _ hcur hsan]

theorem uploadFolderRoute_eq (R : List String) (fs : FsEntry) (cur : String)
    (fd : FolderData) (hR : PlainL R) (hcur : PlainL (splitPath cur))
    (hfn : fd.name ≠ "") (hsan : PlainSeg (jsSanitize fd.name)) :
    uploadFolderRoute R fs cur fd =
      (if (fs.find? (splitPath cur ++ [jsSanitize fd.name])).isSome then
        (.err 409 "Folder already exists", fs)
      else
        match ensureDir fs (splitPath cur ++ [jsSanitize fd.name]) with
        | none => (.err 500 "Internal server error", fs)
        | some fs₁ =>
          (.ok ⟨joinSegs (splitPath cur ++ [jsSanitize fd.name]), jsSanitize fd.name⟩,
           mapAt fs₁ (splitPath cur ++ [jsSanitize fd.name]) (fun e =>
             match e with
             | .file sz => .file sz
             | .dir ch => .dir (processFolderContents fd ch)))) := by
  unfold uploadFolderRoute
  rw [if_neg hfn]
  dsimp only
  rw [resolveAt2_plain R hR cur _ hcur hsan]

theorem dirname_render_true (R : List String) (hR : PlainL R)
    (h2 : 2 ≤ R.length) :
    dirnameStr (renderPath true R) = renderPath true R.dropLast := by
  unfold dirnameStr
  rw [splitPath_renderPath_true R hR, isAbs_renderPath_true]
  rw [if_neg (by omega)]

theorem renameRoute_eq (R : List String) (fs : FsEntry) (oldPath newName : String)
    (hR : PlainL R) (hRne : R ≠ []) (hold : PlainL (splitPath oldPath))
    (holdne : splitPath oldPath ≠ []) (holdstr : oldPath ≠ "")
    (hnn : jsTrim newName ≠ "")
    (hsan : PlainSeg (jsTrim (jsSanitize newName))) :
    renameRoute R fs oldPath newName =
      (match fs.find? (splitPath oldPath) with
      | none => (.err 404 "File/folder not found", fs)
      | some _ =>
        if (fs.find? ((splitPath oldPath).dropLast
            ++ [jsTrim (jsSanitize newName)])).isSome then
          (.err 409 "A file/folder with the new name already exists", fs)
        else
          (.ok ⟨oldPath,
                joinSegs ((splitPath oldPath).dropLast ++ [jsTrim (jsSanitize newName)]),
                jsTrim (jsSanitize newName)⟩,
           renameChild fs (splitPath oldPath).dropLast
             ((splitPath oldPath).getLast?.getD "") (jsTrim (jsSanitize newName)))) := by
  unfold renameRoute
  have hc1 : ¬ (oldPath = "" ∨ newName = "" ∨ jsTrim newName = "") := by
    rintro (h | h | h)
    · exact holdstr h
    · exact hnn (by rw [h]; rfl)
    · exact hnn h
  rw [if_neg hc1]
  dsimp only
  rw [if_neg hsan.1]
  have hjoin : pathJoin (renderPath true R) oldPath
      = renderPath true (R ++ splitPath oldPath) := by
    rw [pathJoin_root R hR oldPath]
    rw [normSegs_plain true _ (by
      intro s hs
      rcases List.mem_append.mp hs with hs | hs
      · exact hR s hs
      · exact hold s hs)]
  have hg1 : jsStartsWith (pathJoin (renderPath true R) oldPath)
      (renderPath true R) = true := by
    rw [hjoin]
    exact jsStartsWith_render R (splitPath oldPath)
  have hdir : dirnameStr (pathJoin (renderPath true R) oldPath)
      = renderPath true (R ++ (splitPath oldPath).dropLast) := by
    rw [hjoin, dirname_render_true (R ++ splitPath oldPath) (by
        intro s hs
        rcases List.mem_append.mp hs with hs | hs
        · exact hR s hs
        · exact hold s hs)
      (by
        rw [List.length_append]
        have h1 : 1 ≤ R.length := by
          cases hRn : R with
          | nil => exact absurd hRn hRne
          | cons a b => simp
        have h2 : 1 ≤ (splitPath oldPath).length := by
          cases hon : splitPath oldPath with
          | nil => exact absurd hon holdne
          | cons a b => simp
        omega),
      List.dropLast_append_of_ne_nil R holdne]
  have hRdrop : PlainL (R ++ (splitPath oldPath).dropLast) := by
    intro s hs
    rcases List.mem_append.mp hs with hs | hs
    · exact hR s hs
    · exact hold s (List.dropLast_subset _ hs)
  have hnewfull : pathJoin (dirnameStr (pathJoin (renderPath true R) oldPath))
      (jsTrim (jsSanitize newName))
      = renderPath true ((R ++ (splitPath oldPath).dropLast)
          ++ [jsTrim (jsSanitize newName)]) := by
    rw [hdir, pathJoin_root _ hRdrop, splitPath_single _ hsan]
    rw [normSegs_plain true _ (by
      intro s hs
      rcases List.mem_append.mp hs with hs | hs
      · exact hRdrop s hs
      · rw [List.mem_singleton.mp hs]
        exact hsan)]
  have hg2 : jsStartsWith (pathJoin (dirnameStr (pathJoin (renderPath true R) oldPath))
      (jsTrim (jsSanitize newName))) (renderPath true R) = true := by
    rw [hnewfull, List.append_assoc]
    exact jsStartsWith_render R _
  rw [hg1, hg2]
  rw [resolveAt_plain R hR oldPath hold]
  simp

/-! ## Claim theorems -/

/-- C2: for every relative path containing a `..` segment that would resolve
outside StorageRoot, `GET /api/files` responds 400 "Invalid path"; the
response is computed before any filesystem access (it is identical for
every tree, and listing performs no mutation). -/
theorem C2_list_rejects_traversal (R : List String) (fs fs' : FsEntry)
    (rel : String) (hR : PlainL R) (hdd : ".." ∈ splitPath rel)
    (hesc : escapesRoot R rel) :
    listFilesRoute R fs rel = .err 400 "Invalid path" ∧
    listFilesRoute R fs rel = listFilesRoute R fs' rel := by
  have hcheck := listCheck_escape R hR rel hesc
  have h1 : ∀ g : FsEntry, listFilesRoute R g rel = .err 400 "Invalid path" := by
    intro g
    unfold listFilesRoute
    dsimp only
    rw [hcheck]
    rfl
  exact ⟨h1 fs, (h1 fs).trans (h1 fs').symm⟩

/-- Witness for C2 at root `/srv/storage` and client path `../x`. -/
theorem C2_list_rejects_traversal_witness :
    PlainL ["srv", "storage"] ∧ ".." ∈ splitPath "../x" ∧
    escapesRoot ["srv", "storage"] "../x" ∧
    (listFilesRoute ["srv", "storage"] (.dir []) "../x" = .err 400 "Invalid path" ∧
     listFilesRoute ["srv", "storage"] (.dir []) "../x"
       = listFilesRoute ["srv", "storage"] (.dir [("a", .file 1)]) "../x") :=
  ⟨by decide, by decide, by decide,
   C2_list_rejects_traversal ["srv", "storage"] (.dir [])
     (.dir [("a", .file 1)]) "../x" (by decide) (by decide) (by decide)⟩

/-- C3: the traversal guard of the delete / force-delete / download /
download-folder / rename / file-info routes is exactly a string-prefix test
of the joined absolute path against the StorageRoot string, with no
path-separator check; consequently the `..` path `../storage2/x` under root
`/srv/storage` is accepted by the guard (each route proceeds past it and
reports 404 on an empty tree instead of Invalid path) even though the path
resolves outside the root. -/
theorem C3_guard_accepts_sibling_escape :
    (∀ root rel, prefixGuard root rel = jsStartsWith (pathJoin root rel) root) ∧
    (".." ∈ splitPath "../storage2/x"
      ∧ prefixGuard (renderPath true ["srv", "storage"]) "../storage2/x" = true
      ∧ escapesRoot ["srv", "storage"] "../storage2/x") ∧
    deleteRoute ["srv", "storage"] (.dir []) "../storage2/x"
      = (.err 404 "File/folder not found", .dir []) ∧
    deleteForceRoute ["srv", "storage"] (.dir []) "../storage2/x"
      = (.err 404 "File/folder not found", .dir []) ∧
    downloadRoute ["srv", "storage"] (.dir []) "../storage2/x"
      = .err 404 "File not found" ∧
    downloadFolderRoute ["srv", "storage"] (.dir []) "../storage2/x"
      = .err 404 "Folder not found" ∧
    fileInfoRoute ["srv", "storage"] (.dir []) "../storage2/x"
      = .err 404 "File/folder not found" ∧
    renameRoute ["srv", "storage"] (.dir []) "../storage2/x" "z"
      = (.err 404 "File/folder not found", .dir []) :=
  ⟨fun root rel => rfl, ⟨by decide, by decide, by decide⟩,
   rfl, rfl, rfl, rfl, rfl, rfl⟩

/-- C1 counterexample: `POST /api/folder` with `currentPath = ".."` and name
`"evil"` under root `/srv/storage` performs no path validation: it reports
success and creates the directory `/srv/evil`, which lies outside
StorageRoot — it does not fail with InvalidPath. -/
theorem C1_root_confinement_counterexample :
    createFolderAbs (fun _ => false) "/srv/storage" ".." "evil"
      = .created "/srv/evil" ∧
    ¬ (splitPath "/srv/storage" <+: splitPath "/srv/evil") := by
  exact ⟨rfl, by decide⟩

/-- C1 amended: `GET /api/files` does validate (escaping paths are rejected
with InvalidPath before any filesystem access), and the other read/delete/
rename routes apply the string-prefix guard, but `POST /api/folder`, the
multer upload destination, and the top level of `POST /api/upload-folder`
perform no path validation at all: a client path that resolves outside
StorageRoot is not rejected and the operation creates its target outside
the root. -/
theorem C1_root_confinement_amended :
    (∀ (R : List String) (fs : FsEntry) (rel : String), PlainL R →
      escapesRoot R rel → listFilesRoute R fs rel = .err 400 "Invalid path") ∧
    (createFolderAbs (fun _ => false) "/srv/storage" ".." "evil"
        = .created "/srv/evil"
      ∧ ¬ (splitPath "/srv/storage" <+: splitPath "/srv/evil")) ∧
    (multerDestination "/srv/storage" "../evil" = "/srv/evil"
      ∧ ¬ (splitPath "/srv/storage" <+: splitPath "/srv/evil")) ∧
    (uploadFolderTarget "/srv/storage" ".." "evil" = "/srv/evil"
      ∧ ¬ (splitPath "/srv/storage" <+: splitPath "/srv/evil")) := by
  refine ⟨?_, ⟨rfl, by decide⟩, ⟨rfl, by decide⟩, ⟨rfl, by decide⟩⟩
  intro R fs rel hR hesc
  have hcheck := listCheck_escape R hR rel hesc
  unfold listFilesRoute
  dsimp only
  rw [hcheck]
  rfl

/-- Witness for C1's amended theorem: the List conjunct at a concrete
escaping path. -/
theorem C1_root_confinement_amended_witness :
    listFilesRoute ["srv", "storage"] (.dir []) "../x" = .err 400 "Invalid path" :=
  C1_root_confinement_amended.1 ["srv", "storage"] (.dir []) "../x"
    (by decide) (by decide)

/-- C8 counterexample: listing a non-existent path returns success with an
empty files list and a computed parent path, but the early return omits
`totalItems` and `totalSize` from the response, so the full documented
success shape is not carried. -/
theorem C8_missing_aggregates_counterexample :
    listFilesRoute ["srv", "storage"] (.dir []) "sub"
      = .ok { files := [], currentPath := "sub", parentPath := some "",
              totalItems := none, totalSize := none } := rfl

/-- C8 amended: `GET /api/files` on a non-existent path returns success with
an empty files list, the echoed current path and the computed parent path,
but without `totalItems`/`totalSize`; those aggregates are present only on
the existing-directory success path. -/
theorem C8_list_missing_path_amended (R : List String) (fs : FsEntry) (p : String)
    (hp : PlainL (splitPath p)) (habs : isAbsStr p = false)
    (hnd : headNoDots (splitPath p)) :
    (fs.find? (resolveAt R p) = none →
      listFilesRoute R fs p
        = .ok { files := [], currentPath := p, parentPath := getParentPath p,
                totalItems := none, totalSize := none }) ∧
    (∀ ch, fs.find? (resolveAt R p) = some (.dir ch) →
      ∃ pl, listFilesRoute R fs p = .ok pl
        ∧ pl.files = sortByLE entryLE (ch.map (mkDirEntry p))
        ∧ pl.totalItems = some pl.files.length
        ∧ pl.totalSize
            = some (pl.files.foldl (fun acc it => acc + it.size.getD 0) 0)) := by
  constructor
  · intro hnone
    rw [listFilesRoute_eq R fs p hp habs hnd, hnone]
  · intro ch hch
    rw [listFilesRoute_eq R fs p hp habs hnd, hch]
    exact ⟨_, rfl, rfl, rfl, rfl⟩

/-- Witness for C8's amended theorem at a concrete missing path. -/
theorem C8_list_missing_path_amended_witness :
    listFilesRoute ["srv", "storage"] (.dir []) "sub"
      = .ok { files := [], currentPath := "sub", parentPath := getParentPath "sub",
              totalItems := none, totalSize := none } :=
  (C8_list_missing_path_amended ["srv", "storage"] (.dir []) "sub"
    (by decide) (by decide) (by decide)).1 (by rfl)

/-- C5: Delete(path, force) — NotFound on an absent target (tree unchanged);
DirectoryNotEmpty on a non-empty directory without force (tree unchanged);
a file, an empty directory, or any target under force is removed
recursively, is absent afterwards, and no longer appears in a subsequent
listing of its parent. -/
theorem C5_delete_semantics (R : List String) (fs : FsEntry) (p : String)
    (hR : PlainL R) (hp : PlainL (splitPath p)) (hne : splitPath p ≠ [])
    (hpne : p ≠ "") :
    (fs.find? (splitPath p) = none →
      deleteRoute R fs p = (.err 404 "File/folder not found", fs) ∧
      deleteForceRoute R fs p = (.err 404 "File/folder not found", fs)) ∧
    (∀ ch, fs.find? (splitPath p) = some (.dir ch) → ch ≠ [] →
      deleteRoute R fs p
        = (.err 400 "Folder is not empty. Delete contents first or use force delete.",
           fs)) ∧
    (∀ sz, fs.find? (splitPath p) = some (.file sz) →
      deleteRoute R fs p = (.ok ⟨p⟩, removeEntry fs (splitPath p)) ∧
      (removeEntry fs (splitPath p)).find? (splitPath p) = none) ∧
    (fs.find? (splitPath p) = some (.dir []) →
      deleteRoute R fs p = (.ok ⟨p⟩, removeEntry fs (splitPath p)) ∧
      (removeEntry fs (splitPath p)).find? (splitPath p) = none) ∧
    (∀ e, fs.find? (splitPath p) = some e →
      deleteForceRoute R fs p = (.ok ⟨p⟩, removeEntry fs (splitPath p)) ∧
      (removeEntry fs (splitPath p)).find? (splitPath p) = none) ∧
    (∀ e q name pstr ch, splitPath p = q ++ [name] →
      splitPath pstr = q → isAbsStr pstr = false → headNoDots q →
      fs.find? (splitPath p) = some e → fs.find? q = some (.dir ch) →
      ∃ pl, listFilesRoute R (removeEntry fs (splitPath p)) pstr = .ok pl ∧
        ∀ d ∈ pl.files, d.name ≠ name) := by
  refine ⟨?_, ?_, ?_, ?_, ?_, ?_⟩
  · intro hnone
    constructor
    · rw [deleteRoute_eq R fs p hR hp hpne, hnone]
    · rw [deleteForceRoute_eq R fs p hR hp hpne, hnone]
  · intro ch hch hchne
    rw [deleteRoute_eq R fs p hR hp hpne, hch]
    dsimp only
    rw [if_pos (List.length_pos.mpr hchne)]
  · intro sz hsz
    refine ⟨?_, find?_removeEntry fs (splitPath p) _ hne hsz⟩
    rw [deleteRoute_eq R fs p hR hp hpne, hsz]
  · intro hdir
    refine ⟨?_, find?_removeEntry fs (splitPath p) _ hne hdir⟩
    rw [deleteRoute_eq R fs p hR hp hpne, hdir]
    dsimp only
    rw [if_neg (by simp)]
  · intro e he
    refine ⟨?_, find?_removeEntry fs (splitPath p) _ hne he⟩
    rw [deleteForceRoute_eq R fs p hR hp hpne, he]
  · intro e q name pstr ch hsplit hpstr habs hnd _ hparent
    have hq : PlainL q := by
      intro s hs
      exact hp s (by rw [hsplit]; exact List.mem_append.mpr (Or.inl hs))
    have hremoved := find?_removeEntry_parent fs q name ch hparent
    rw [← hsplit] at hremoved
    have hresolve : resolveAt R pstr = q := by
      rw [resolveAt_plain R hR pstr (by rw [hpstr]; exact hq), hpstr]
    rw [listFilesRoute_eq R _ pstr (by rw [hpstr]; exact hq) habs
      (by rw [hpstr]; exact hnd), hresolve, hremoved]
    refine ⟨_, rfl, ?_⟩
    intro d hd
    rw [mem_sortByLE] at hd
    obtain ⟨c, hc, rfl⟩ := List.mem_map.mp hd
    have := (List.mem_filter.mp hc).2
    intro hname
    rw [show (mkDirEntry pstr c).name = c.1 from rfl] at hname
    rw [hname] at this
    simp at this

/-- Witness for C5 in a tree with a non-empty directory `docs`. -/
theorem C5_delete_semantics_witness :
    (deleteRoute ["srv", "storage"]
        (.dir [("docs", .dir [("a.txt", .file 3)]), ("x.txt", .file 1)]) "docs"
      = (.err 400 "Folder is not empty. Delete contents first or use force delete.",
         .dir [("docs", .dir [("a.txt", .file 3)]), ("x.txt", .file 1)])) ∧
    (deleteForceRoute ["srv", "storage"]
        (.dir [("docs", .dir [("a.txt", .file 3)]), ("x.txt", .file 1)]) "docs"
      = (.ok ⟨"docs"⟩,
         removeEntry (.dir [("docs", .dir [("a.txt", .file 3)]), ("x.txt", .file 1)])
           (splitPath "docs"))) ∧
    (∃ pl, listFilesRoute ["srv", "storage"]
        (removeEntry (.dir [("docs", .dir [("a.txt", .file 3)]), ("x.txt", .file 1)])
          (splitPath "docs")) "" = .ok pl ∧ ∀ d ∈ pl.files, d.name ≠ "docs") := by
  have h := C5_delete_semantics ["srv", "storage"]
    (.dir [("docs", .dir [("a.txt", .file 3)]), ("x.txt", .file 1)]) "docs"
    (by decide) (by decide) (by decide) (by decide)
  exact ⟨h.2.1 [("a.txt", FsEntry.file 3)] (by rfl) (by simp),
         (h.2.2.2.2.1 (.dir [("a.txt", .file 3)]) (by rfl)).1,
         h.2.2.2.2.2 (.dir [("a.txt", .file 3)]) [] "docs" ""
           [("docs", .dir [("a.txt", .file 3)]), ("x.txt", .file 1)]
           (by rfl) (by rfl) (by rfl) trivial (by rfl) (by rfl)⟩

/-- C6: no-auto-rename for folder creation — `POST /api/folder` and the top
level of `POST /api/upload-folder` both respond 409 and leave the tree
untouched when an entry with the sanitized target name already exists (no
disambiguation suffix is applied, and in the upload-folder case nothing at
all is created); when the name is free, the directory is created, with
parents as needed. -/
theorem C6_no_auto_rename (R : List String) (fs : FsEntry)
    (cur folderName : String) (fd : FolderData) (hR : PlainL R)
    (hcur : PlainL (splitPath cur)) (hfn : jsTrim folderName ≠ "")
    (hsan : PlainSeg (jsTrim (jsSanitize folderName)))
    (hufn : fd.name ≠ "") (husan : PlainSeg (jsSanitize fd.name)) :
    ((fs.find? (splitPath cur ++ [jsTrim (jsSanitize folderName)])).isSome →
      createFolderRoute R fs cur folderName = (.err 409 "Folder already exists", fs)) ∧
    (∀ fs', fs.find? (splitPath cur ++ [jsTrim (jsSanitize folderName)]) = none →
      ensureDir fs (splitPath cur ++ [jsTrim (jsSanitize folderName)]) = some fs' →
      createFolderRoute R fs cur folderName
        = (.ok ⟨jsTrim (jsSanitize folderName),
                joinSegs (splitPath cur ++ [jsTrim (jsSanitize folderName)])⟩, fs') ∧
      ∃ ch, fs'.find? (splitPath cur ++ [jsTrim (jsSanitize folderName)])
        = some (.dir ch)) ∧
    ((fs.find? (splitPath cur ++ [jsSanitize fd.name])).isSome →
      uploadFolderRoute R fs cur fd = (.err 409 "Folder already exists", fs)) ∧
    (∀ fs₁, fs.find? (splitPath cur ++ [jsSanitize fd.name]) = none →
      ensureDir fs (splitPath cur ++ [jsSanitize fd.name]) = some fs₁ →
      (uploadFolderRoute R fs cur fd).1
        = .ok ⟨joinSegs (splitPath cur ++ [jsSanitize fd.name]), jsSanitize fd.name⟩ ∧
      ∃ ch, (uploadFolderRoute R fs cur fd).2.find?
        (splitPath cur ++ [jsSanitize fd.name]) = some (.dir ch)) := by
  refine ⟨?_, ?_, ?_, ?_⟩
  · intro hsome
    rw [createFolderRoute_eq R fs cur folderName hR hcur hfn hsan, if_pos hsome]
  · intro fs' hnone hens
    rw [createFolderRoute_eq R fs cur folderName hR hcur hfn hsan,
      if_neg (by rw [hnone]; simp), hens]
    exact ⟨rfl, find?_ensureDir fs fs' _ hens⟩
  · intro hsome
    rw [uploadFolderRoute_eq R fs cur fd hR hcur hufn husan, if_pos hsome]
  · intro fs₁ hnone hens
    rw [uploadFolderRoute_eq R fs cur fd hR hcur hufn husan,
      if_neg (by rw [hnone]; simp), hens]
    obtain ⟨ch₁, hch₁⟩ := find?_ensureDir fs fs₁ _ hens
    refine ⟨rfl, ?_⟩
    dsimp only
    refine ⟨processFolderContents fd ch₁, ?_⟩
    exact find?_mapAt fs₁ _ _ _ hch₁

/-- Witness for C6: creating `docs` twice at the root. -/
theorem C6_no_auto_rename_witness :
    createFolderRoute ["srv", "storage"] (.dir [("docs", .dir [])]) "" "docs"
      = (.err 409 "Folder already exists", .dir [("docs", .dir [])]) ∧
    (createFolderRoute ["srv", "storage"] (.dir []) "" "docs"
      = (.ok ⟨"docs", joinSegs (splitPath "" ++ ["docs"])⟩, .dir [("docs", .dir [])]) ∧
     ∃ ch, (FsEntry.dir [("docs", .dir [])]).find? (splitPath "" ++ ["docs"])
        = some (.dir ch)) ∧
    uploadFolderRoute ["srv", "storage"] (.dir [("up", .dir [])]) ""
        (.node "up" [] [])
      = (.err 409 "Folder already exists", .dir [("up", .dir [])]) := by
  have h1 := C6_no_auto_rename ["srv", "storage"] (.dir [("docs", .dir [])])
    "" "docs" (.node "up" [] []) (by decide) (by decide) (by decide) (by decide)
    (by decide) (by decide)
  have h2 := C6_no_auto_rename ["srv", "storage"] (.dir [])
    "" "docs" (.node "up" [] []) (by decide) (by decide) (by decide) (by decide)
    (by decide) (by decide)
  have h3 := C6_no_auto_rename ["srv", "storage"] (.dir [("up", .dir [])])
    "" "docs" (.node "up" [] []) (by decide) (by decide) (by decide) (by decide)
    (by decide) (by decide)
  refine ⟨?_, ?_, ?_⟩
  · exact h1.1 (by rfl)
  · exact h2.2.1 (.dir [("docs", .dir [])]) (by rfl) (by rfl)
  · exact h3.2.2.1 (by rfl)

theorem find?_append (fs : FsEntry) (p r : List String) :
    fs.find? (p ++ r) = (fs.find? p).bind (fun e => e.find? r) := by
  induction p generalizing fs with
  | nil => rw [List.nil_append, find?_nil, Option.some_bind]
  | cons s p' ih =>
    cases fs with
    | file sz =>
      rw [List.cons_append, find?_file_cons, find?_file_cons, Option.none_bind]
    | dir ch =>
      rw [List.cons_append, find?_dir_cons, find?_dir_cons]
      cases childGet ch s with
      | none => simp
      | some e =>
        rw [Option.some_bind, Option.some_bind]
        exact ih e

theorem find?_single_of_parent (fs : FsEntry) (q : List String) (x : String)
    (ch : List (String × FsEntry)) (hq : fs.find? q = some (.dir ch)) :
    fs.find? (q ++ [x]) = childGet ch x := by
  rw [find?_append, hq, Option.some_bind, find?_dir_cons]
  cases childGet ch x with
  | none => rw [Option.none_bind]
  | some e => rw [Option.some_bind, find?_nil]

/-- C7: Rename(oldPath, newName) sanitizes the new name, targets the sibling
path in the same parent, responds 404 when the old path is absent and 409
when the target exists (tree unchanged in both cases), and otherwise
performs the single rename, returning the new relative path and the
sanitized name; afterwards the entry sits at the target path and is gone
from the old one. -/
theorem C7_rename_semantics (R : List String) (fs : FsEntry)
    (oldPath newName : String) (hR : PlainL R) (hRne : R ≠ [])
    (hold : PlainL (splitPath oldPath)) (holdne : splitPath oldPath ≠ [])
    (holdstr : oldPath ≠ "") (hnn : jsTrim newName ≠ "")
    (hsan : PlainSeg (jsTrim (jsSanitize newName))) :
    (fs.find? (splitPath oldPath) = none →
      renameRoute R fs oldPath newName = (.err 404 "File/folder not found", fs)) ∧
    (∀ e, fs.find? (splitPath oldPath) = some e →
      (fs.find? ((splitPath oldPath).dropLast
        ++ [jsTrim (jsSanitize newName)])).isSome →
      renameRoute R fs oldPath newName
        = (.err 409 "A file/folder with the new name already exists", fs)) ∧
    (∀ e q name ch, splitPath oldPath = q ++ [name] →
      fs.find? (splitPath oldPath) = some e →
      fs.find? (q ++ [jsTrim (jsSanitize newName)]) = none →
      fs.find? q = some (.dir ch) →
      renameRoute R fs oldPath newName
        = (.ok ⟨oldPath, joinSegs (q ++ [jsTrim (jsSanitize newName)]),
                jsTrim (jsSanitize newName)⟩,
           renameChild fs q name (jsTrim (jsSanitize newName))) ∧
      (renameChild fs q name (jsTrim (jsSanitize newName))).find?
          (q ++ [jsTrim (jsSanitize newName)]) = some e ∧
      (renameChild fs q name (jsTrim (jsSanitize newName))).find?
          (q ++ [name]) = none) := by
  refine ⟨?_, ?_, ?_⟩
  · intro hnone
    rw [renameRoute_eq R fs oldPath newName hR hRne hold holdne holdstr hnn hsan,
      hnone]
  · intro e he hsome
    rw [renameRoute_eq R fs oldPath newName hR hRne hold holdne holdstr hnn hsan,
      he]
    dsimp only
    rw [if_pos hsome]
  · intro e q name ch hsplit he hnew hq
    have hdrop : (splitPath oldPath).dropLast = q := by
      rw [hsplit, List.dropLast_append_of_ne_nil q (by simp)]
      simp
    have hlast : (splitPath oldPath).getLast?.getD "" = name := by
      rw [hsplit, List.getLast?_concat]
      rfl
    have hchold : childGet ch name = some e := by
      rw [← find?_single_of_parent fs q name ch hq, ← hsplit]
      exact he
    have hchnew : childGet ch (jsTrim (jsSanitize newName)) = none := by
      rw [← find?_single_of_parent fs q _ ch hq]
      exact hnew
    have hsanname : jsTrim (jsSanitize newName) ≠ name := by
      intro hcontra
      rw [hcontra] at hchnew
      rw [hchnew] at hchold
      exact Option.noConfusion hchold
    have hmapped := find?_mapAt fs q (fun e =>
      match e with
      | .file sz => .file sz
      | .dir ch => .dir (ch.map (fun c =>
          if c.1 = name then (jsTrim (jsSanitize newName), c.2) else c)))
      (.dir ch) hq
    refine ⟨?_, ?_, ?_⟩
    · rw [renameRoute_eq R fs oldPath newName hR hRne hold holdne holdstr hnn hsan,
        he]
      dsimp only
      rw [if_neg (by rw [hdrop, hnew]; simp), hdrop, hlast]
    · rw [show renameChild fs q name (jsTrim (jsSanitize newName))
          = mapAt fs q _ from rfl]
      rw [find?_single_of_parent _ q _ _ hmapped]
      exact childGet_map_rename_new ch name _ e hchnew hchold
    · rw [show renameChild fs q name (jsTrim (jsSanitize newName))
          = mapAt fs q _ from rfl]
      rw [find?_single_of_parent _ q _ _ hmapped]
      exact childGet_map_rename_gone ch name _ hsanname

/-- Witness for C7: renaming `old.txt` to `new.txt` beside `docs`. -/
theorem C7_rename_semantics_witness :
    renameRoute ["srv", "storage"]
        (.dir [("docs", .dir []), ("old.txt", .file 2)]) "old.txt" "new.txt"
      = (.ok ⟨"old.txt", joinSegs ([] ++ [jsTrim (jsSanitize "new.txt")]),
              jsTrim (jsSanitize "new.txt")⟩,
         renameChild (.dir [("docs", .dir []), ("old.txt", .file 2)]) []
           "old.txt" (jsTrim (jsSanitize "new.txt"))) ∧
    renameRoute ["srv", "storage"]
        (.dir [("docs", .dir []), ("old.txt", .file 2)]) "old.txt" "docs"
      = (.err 409 "A file/folder with the new name already exists",
         .dir [("docs", .dir []), ("old.txt", .file 2)]) := by
  have h1 := C7_rename_semantics ["srv", "storage"]
    (.dir [("docs", .dir []), ("old.txt", .file 2)]) "old.txt" "new.txt"
    (by decide) (by decide) (by decide) (by decide) (by decide) (by decide)
    (by decide)
  have h2 := C7_rename_semantics ["srv", "storage"]
    (.dir [("docs", .dir []), ("old.txt", .file 2)]) "old.txt" "docs"
    (by decide) (by decide) (by decide) (by decide) (by decide) (by decide)
    (by decide)
  exact ⟨(h1.2.2 (.file 2) [] "old.txt" [("docs", .dir []), ("old.txt", .file 2)]
            (by rfl) (by rfl) (by rfl) (by rfl)).1,
         h2.2.1 (.file 2) (by rfl) (by rfl)⟩

/-- C4: the Name Allocator returns a free sanitized name unchanged;
otherwise it tries `"{stem} (1){ext}"`, `"{stem} (2){ext}"`, … in increasing
order and returns the first unused probe; allocating the same desired name
`N` times into an initially empty directory, creating each result, yields
`name`, `name (1)`, …, `name (N-1)` in that order — for any extension,
including the empty one used for directories; the multer filename callback
is exactly this allocator on the sanitized stem and parsed extension. -/
theorem C4_name_allocator (stem ext : String) :
    (∀ taken : List String, stem ++ ext ∉ taken →
      allocateName taken stem ext = stem ++ ext) ∧
    (∀ taken : List String, ∃ m,
      allocateName taken stem ext = probeName stem ext m ∧
      probeName stem ext m ∉ taken ∧
      ∀ j, j < m → probeName stem ext j ∈ taken) ∧
    (∀ N : Nat, allocSeq stem ext N = (List.range N).map (probeName stem ext)) ∧
    (∀ (taken : List String) (originalname : String),
      multerFilename taken originalname
        = allocateName taken (jsSanitize (parseNameExt originalname).1)
            (parseNameExt originalname).2) :=
  ⟨fun taken h => allocateName_base_free taken stem ext h,
   fun taken => allocateName_least taken stem ext,
   allocSeq_eq stem ext,
   fun _ _ => rfl⟩

/-- Witness for C4: three allocations of `report.txt` into an empty
directory, and the free-name case. -/
theorem C4_name_allocator_witness :
    allocSeq "report" ".txt" 3
      = ["report.txt", "report (1).txt", "report (2).txt"] ∧
    allocateName [] "report" ".txt" = "report" ++ ".txt" := by
  have h := C4_name_allocator "report" ".txt"
  refine ⟨?_, h.1 [] (by decide)⟩
  rw [h.2.2.1 3]
  decide

/-- C9: the claim fails on the code.  The limit-error middleware of lines
84–95 sits at index 5 of the registration stack, before the upload route
at index 7, and error dispatch scans only forward, so no error handler
follows the upload route: a request with an oversized file — and likewise
one with too many files — is answered 500 "Internal Server Error" by the
default handler, not 400 with the specific message.  The intended 400
mappings with their distinct messages do exist in the middleware, but are
unreachable from the upload route. -/
theorem C9_upload_limits_code_bug :
    serverLayers[5]? = some (.errorHandler "limit-error middleware") ∧
    serverLayers[uploadRouteIdx]? = some (.plain "POST /api/upload") ∧
    (serverLayers.drop (uploadRouteIdx + 1)).any LayerKind.isErrorHandler = false ∧
    uploadLimitResponse [200 * 1024 * 1024]
      = some (500, "Internal Server Error") ∧
    uploadLimitResponse (List.replicate 51 1)
      = some (500, "Internal Server Error") ∧
    errorMiddleware .limitFileSize
      = (400, "File too large. Maximum size is 100MB") ∧
    errorMiddleware .limitFileCount
      = (400, "Too many files. Maximum is 50 files") ∧
    ("File too large. Maximum size is 100MB"
      ≠ "Too many files. Maximum is 50 files") :=
  ⟨rfl, rfl, rfl, by decide, by decide, rfl, rfl, by decide⟩

/-- C10 counterexample: the multer filename callback sanitizes only the
parsed stem, so an upload named `x.a?b` is stored as `x.a?b` — the `?` in
the extension survives, no trimming happens and no empty-name error exists
on that path. -/
theorem C10_sanitization_counterexample :
    multerFilename [] "x.a?b" = "x.a?b" ∧
    '?' ∈ (multerFilename [] "x.a?b").data :=
  ⟨rfl, by decide⟩

/-- C10 amended: the replacement itself never leaves a forbidden character;
CreateFolder and Rename use the trimmed sanitized name and reject with a
400 error, never creating an entry, when it is empty (as the required-name
message when the raw name was already whitespace-only — sanitization never
produces whitespace, so the dedicated invalid-name branch cannot fire); but the file-upload path stores the sanitized
stem with the raw extension (no trim, no empty check), and the folder-upload
materializer sanitizes without trimming and silently skips falsy names. -/
theorem C10_sanitization_amended :
    (∀ s : String, ∀ c ∈ (jsSanitize s).data, forbiddenChar c = false) ∧
    (∀ (R : List String) (fs : FsEntry) (cur name : String),
      jsTrim (jsSanitize name) = "" →
      ∃ msg, createFolderRoute R fs cur name = (.err 400 msg, fs)
        ∧ (msg = "Folder name is required" ∨ msg = "Invalid folder name")) ∧
    (∀ (R : List String) (fs : FsEntry) (oldPath newName : String),
      jsTrim (jsSanitize newName) = "" →
      ∃ msg, renameRoute R fs oldPath newName = (.err 400 msg, fs)
        ∧ (msg = "Old path and new name are required" ∨ msg = "Invalid new name")) ∧
    (∀ orig : String, multerFilename [] orig
      = jsSanitize (parseNameExt orig).1 ++ (parseNameExt orig).2) ∧
    (∀ (nm content : String) (rest : List (String × String))
       (ch : List (String × FsEntry)), nm ≠ "" → content ≠ "" →
      processFiles ((nm, content) :: rest) ch
        = processFiles rest (ch ++
            [(allocateName (namesOf ch) (parseNameExt (jsSanitize nm)).1
                (parseNameExt (jsSanitize nm)).2, .file content.length)])) ∧
    (∀ (content : String) (rest : List (String × String))
       (ch : List (String × FsEntry)),
      processFiles (("", content) :: rest) ch = processFiles rest ch) := by
  refine ⟨?_, ?_, ?_, ?_, ?_, ?_⟩
  · intro s c hc
    unfold jsSanitize at hc
    obtain ⟨x, _, rfl⟩ := List.mem_map.mp hc
    by_cases hx : forbiddenChar x = true
    · rw [if_pos hx]
      decide
    · rw [if_neg hx]
      exact Bool.not_eq_true _ |>.mp hx
  · intro R fs cur name hempty
    unfold createFolderRoute
    by_cases h1 : name = "" ∨ jsTrim name = ""
    · refine ⟨"Folder name is required", ?_, Or.inl rfl⟩
      rw [if_pos h1]
    · refine ⟨"Invalid folder name", ?_, Or.inr rfl⟩
      rw [if_neg h1]
      dsimp only
      rw [if_pos hempty]
  · intro R fs oldPath newName hempty
    unfold renameRoute
    by_cases h1 : oldPath = "" ∨ newName = "" ∨ jsTrim newName = ""
    · refine ⟨"Old path and new name are required", ?_, Or.inl rfl⟩
      rw [if_pos h1]
    · refine ⟨"Invalid new name", ?_, Or.inr rfl⟩
      rw [if_neg h1]
      dsimp only
      rw [if_pos hempty]
  · intro orig
    exact allocateName_base_free [] _ _ (by simp)
  · intro nm content rest ch hnm hcontent
    unfold processFiles
    rw [if_neg (by
      rintro (h | h)
      · exact hnm h
      · exact hcontent h)]
    cases rest <;> rfl
  · intro content rest ch
    unfold processFiles
    rw [if_pos (Or.inl rfl)]
    cases rest <;> rfl

/-- Witness for C10's amended theorem at concrete names. -/
theorem C10_sanitization_amended_witness :
    (∃ msg, createFolderRoute ["srv", "storage"] (.dir []) "" " "
        = (.err 400 msg, .dir [])
      ∧ (msg = "Folder name is required" ∨ msg = "Invalid folder name")) ∧
    multerFilename [] "x.a?b"
      = jsSanitize (parseNameExt "x.a?b").1 ++ (parseNameExt "x.a?b").2 :=
  ⟨C10_sanitization_amended.2.1 ["srv", "storage"] (.dir []) "" " " (by decide),
   C10_sanitization_amended.2.2.2.1 "x.a?b"⟩

end FileStore
